import Mathlib

/-!
Verification development for the `contact_scraper` repository.

The Python sources are shallowly embedded: Python strings are modelled as
`List Char` (`Str`), `None`-able fields as `Option Str`, and Python
truthiness (`None` and `""` are falsy) as `pyTruthy`.  Pure string helpers
(`str.strip`, `str.split`, `str.lower`, `str.replace`) are given executable
Lean counterparts restricted to the ASCII behaviour the scraper relies on.
DOM queries made through BeautifulSoup/Scrapy selectors are modelled as
oracle inputs (the data such a query returns), while every guard, field
update and control-flow decision of the Python code is embedded directly.
-/

/-- Python strings are modelled as lists of characters. -/
abbrev Str := List Char

/-- The whitespace characters removed by Python's `str.strip()` (ASCII part:
space, tab, newline, carriage return, vertical tab, form feed). -/
def pyWs (c : Char) : Bool :=
  c = ' ' || c = '\t' || c = '\n' || c = '\r' || c = '\x0b' || c = '\x0c'

/-- Remove leading whitespace, as in Python `str.lstrip()`. -/
def ltrim (l : Str) : Str := l.dropWhile pyWs

/-- Remove trailing whitespace, as in Python `str.rstrip()`. -/
def rtrim (l : Str) : Str := (ltrim l.reverse).reverse

/-- Python `str.strip()`: remove leading and trailing whitespace. -/
def pstrip (l : Str) : Str := rtrim (ltrim l)

/-- Python truthiness for an optional string: `None` and `""` are falsy. -/
def pyTruthy : Option Str → Bool
  | none => false
  | some s => s ≠ []

/-- The check that a string does not start with whitespace. -/
def headOk (m : Str) : Bool :=
  match m.head? with
  | none => true
  | some c => !pyWs c

/-- Python `s.split(sep)` for a one-character separator: `"".split(sep)`
is `[""]`, and separators at the ends produce empty chunks. -/
def splitOnChar (sep : Char) : Str → List Str
  | [] => [[]]
  | c :: cs =>
    match splitOnChar sep cs with
    | [] => [[]]
    | h :: t => if c = sep then [] :: h :: t else (c :: h) :: t

/-- Join chunks with a one-character separator (inverse of `splitOnChar`). -/
def joinWithChar (sep : Char) : List Str → Str
  | [] => []
  | [x] => x
  | x :: xs => x ++ sep :: joinWithChar sep xs

/-- Python `str.lower()` on one character (ASCII range, as the scraper's
data is ASCII; this is Lean core's `Char.toLower`). -/
def pyLowerChar (c : Char) : Char := Char.toLower c

/-- Python `str.isdigit()` for ASCII text: non-empty and all digits. -/
def pyIsDigit (l : Str) : Bool := !l.isEmpty && l.all Char.isDigit

/-- Python `str.isalpha()` for ASCII text: non-empty and all letters. -/
def pyIsAlpha (l : Str) : Bool := !l.isEmpty && l.all Char.isAlpha

/-!
## The contact record

`RawContact` dictionaries built by the extractors always carry the keys
`name, email, phone, designation, university, department, source_url,
scraped_date`; the first six are `None`-able strings, the last two plain
strings (`contact.get('source_url', '')` defaults to `""`).
-/

structure Contact where
  name : Option Str
  email : Option Str
  phone : Option Str
  designation : Option Str
  university : Option Str
  department : Option Str
  source_url : Str
  scraped_date : Str
deriving DecidableEq, Repr

/-- The all-`None` contact skeleton used by the extractors. -/
def emptyContact (sourceUrl scrapedDate : Str) : Contact :=
  { name := none, email := none, phone := none, designation := none
    university := none, department := none
    source_url := sourceUrl, scraped_date := scrapedDate }

/-!
## `clean_contact_data` (src/oxylabs_integration.py, lines 707-785)

Each field is cleaned independently, exactly as in the source.  A non-string
value stored in a field behaves like `None` there (`isinstance` guard), so
fields are modelled as `Option Str`.
-/

/-- The email branch of `clean_contact_data`:
`if email and isinstance(email, str) and '@' in email:` strip, split on
`'@'`; with exactly two parts re-join the stripped halves, otherwise keep
the stripped string; in all other cases the result is `None`. -/
def cleanEmailField : Option Str → Option Str
  | none => none
  | some e =>
    if e ≠ [] ∧ '@' ∈ e then
      let e' := pstrip e
      match splitOnChar '@' e' with
      | [p0, p1] => some (pstrip p0 ++ '@' :: pstrip p1)
      | _ => some e'
    else none

/-- The phone branch of `clean_contact_data`: strip, then require
`phone and len(phone) >= 7 and not phone.isdigit()`, else `None`. -/
def cleanPhoneField : Option Str → Option Str
  | none => none
  | some p =>
    if p ≠ [] then
      let p' := pstrip p
      if p' ≠ [] ∧ 7 ≤ p'.length ∧ ¬pyIsDigit p' then some p' else none
    else none

/-- The name/designation/university/department branch of
`clean_contact_data`: strip, then require a length greater than 2,
else `None`. -/
def cleanTextField : Option Str → Option Str
  | none => none
  | some s =>
    if s ≠ [] then
      let s' := pstrip s
      if s' ≠ [] ∧ 2 < s'.length then some s' else none
    else none

/-- `clean_contact_data(contact)`: per-field cleaning; `source_url` and
`scraped_date` pass through unchanged. -/
def clean_contact_data (c : Contact) : Contact :=
  { name := cleanTextField c.name
    email := cleanEmailField c.email
    phone := cleanPhoneField c.phone
    designation := cleanTextField c.designation
    university := cleanTextField c.university
    department := cleanTextField c.department
    source_url := c.source_url
    scraped_date := c.scraped_date }

/-!
## `clean_and_deduplicate_contacts` (src/oxylabs_integration.py, lines 686-704)

Iterate the contacts in order, clean each one, and keep it only when its
cleaned email is truthy and not yet in `seen_emails`.
-/

/-- The loop of `clean_and_deduplicate_contacts`, with the `seen_emails`
set carried as a list. -/
def cleanAndDedupAux (seen : List Str) : List Contact → List Contact
  | [] => []
  | c :: cs =>
    let cc := clean_contact_data c
    match cc.email with
    | some e =>
      if e ≠ [] ∧ e ∉ seen then cc :: cleanAndDedupAux (e :: seen) cs
      else cleanAndDedupAux seen cs
    | none => cleanAndDedupAux seen cs

/-- `clean_and_deduplicate_contacts(contacts)`. -/
def clean_and_deduplicate_contacts (cs : List Contact) : List Contact :=
  cleanAndDedupAux [] cs


/-!
## Spec-side comparison definitions and concrete records
-/

/-- The email-validity rule exactly as the spec's words state it (written
from the spec, for comparison with `cleanEmailField`): the trimmed input
splits at exactly one `'@'` into a local part and a domain part that are
both non-empty after trimming. -/
def specEmailWellFormedB (e : Str) : Bool :=
  match splitOnChar '@' (pstrip e) with
  | [l, r] => !(pstrip l).isEmpty && !(pstrip r).isEmpty
  | _ => false

/-- The canonical-address invariant as the spec's words state it (for C6):
lowercased (no ASCII uppercase letter), trimmed, exactly one `'@'`, both
halves non-empty. -/
def specCanonicalEmailB (e : Str) : Bool :=
  e.all (fun c => !(65 ≤ c.toNat && c.toNat ≤ 90)) &&
  pstrip e == e &&
  (match splitOnChar '@' e with
   | [l, r] => !l.isEmpty && !r.isEmpty
   | _ => false)

/-- A record without an email address (used against C1). -/
def recNoEmail : Contact :=
  { name := some "Dr. Jane Smith".toList, email := none
    phone := some "+60 3-7491 8622".toList, designation := none
    university := none, department := none
    source_url := "https://u.edu/contact".toList, scraped_date := "2024-01-01".toList }

/-- A record whose email has two `'@'` signs (used against C3). -/
def recDoubleAt : Contact :=
  { name := none, email := some "a@@b".toList, phone := none
    designation := none, university := none, department := none
    source_url := [], scraped_date := [] }

/-- A record whose email has an uppercase letter (used against C6). -/
def recUpperEmail : Contact :=
  { name := none, email := some "Ab@Cd.edu".toList, phone := none
    designation := none, university := none, department := none
    source_url := [], scraped_date := [] }

/-- First of two records sharing one email (C4 witness). -/
def recDupA : Contact :=
  { name := some "Alice Anders".toList, email := some " alice@uni.edu ".toList
    phone := none, designation := none, university := none, department := none
    source_url := "https://u.edu/a".toList, scraped_date := "2024-01-01".toList }

/-- Second of two records sharing one email (C4 witness). -/
def recDupB : Contact :=
  { name := some "Alice B. Anders".toList, email := some "alice@uni.edu".toList
    phone := some "+60 3-7491 8622".toList, designation := some "Professor".toList
    university := some "Uni".toList, department := some "Math".toList
    source_url := "https://u.edu/b".toList, scraped_date := "2024-01-02".toList }

/-- A record with a clean email (C1 witness). -/
def recKept : Contact :=
  { name := none, email := some "kept@u.edu".toList, phone := none
    designation := none, university := none, department := none
    source_url := [], scraped_date := [] }


/-!
## URL prioritization (src/oxylabs_integration.py, `discover_urls` phase 2,
lines 1145-1229 and 1327-1337)

The prioritizer scores each discovered URL by summing the weights of every
keyword occurring as a substring of the lowercased URL, sorts descending by
score (Python `list.sort` is stable; `sortDesc` below is the stable
descending sort by key), partitions into high/medium/low/no buckets,
concatenates them in that order and returns the first `max_pages` URLs.
The optional AI re-scoring phase (`enable_ai_url_filter`, default off) is
not modelled.  The iteration order of the `discovered_urls` set is taken as
the input list order.
-/

/-- Python `needle in hay` for strings. -/
def strContains : Str → Str → Bool
  | [], needle => needle.isEmpty
  | c :: cs, needle => needle.isPrefixOf (c :: cs) || strContains cs needle

/-- The fixed keyword→weight table of `discover_urls`, in source order. -/
def keyword_scores : List (Str × Nat) :=
  [("professor".toList, 120), ("lecturer".toList, 120), ("dr-".toList, 120),
   ("prof-".toList, 120), ("associate-professor".toList, 120),
   ("assistant-professor".toList, 120),
   ("contact".toList, 100), ("contacts".toList, 100), ("contact-us".toList, 100),
   ("contactus".toList, 100), ("directory".toList, 100),
   ("staff-directory".toList, 100), ("faculty-directory".toList, 100),
   ("people-directory".toList, 100),
   ("staff".toList, 80), ("faculty".toList, 80), ("team".toList, 80),
   ("people".toList, 80), ("employee".toList, 80), ("personnel".toList, 80),
   ("academic-staff".toList, 80), ("faculty-members".toList, 80),
   ("teaching-staff".toList, 80), ("research-staff".toList, 80),
   ("about".toList, 60), ("about-us".toList, 60), ("aboutus".toList, 60),
   ("department".toList, 60), ("departments".toList, 60), ("school".toList, 60),
   ("administration".toList, 60), ("management".toList, 60),
   ("leadership".toList, 60), ("dean".toList, 60), ("head".toList, 60),
   ("director".toList, 60), ("institute".toList, 60),
   ("office".toList, 40), ("offices".toList, 40), ("support".toList, 40),
   ("service".toList, 40), ("help".toList, 40), ("enquiry".toList, 40),
   ("enquiries".toList, 40), ("inquiry".toList, 40), ("advisor".toList, 40),
   ("counselor".toList, 40), ("counsellor".toList, 40),
   ("profile".toList, 20), ("bio".toList, 20), ("biography".toList, 20),
   ("member".toList, 20), ("research".toList, 20), ("academic".toList, 20)]

/-- A URL's keyword score: the sum of the weights of all keywords contained
in the lowercased URL. -/
def urlScore (url : Str) : Nat :=
  keyword_scores.foldl
    (fun acc kw => if strContains (url.map pyLowerChar) kw.1 then acc + kw.2 else acc) 0

/-- Insert into a descending-sorted list, after every element of at least
equal key (so earlier elements with an equal key stay in front: the
stable-sort insertion step). -/
def insertDesc {α : Type} (key : α → Nat) (a : α) : List α → List α
  | [] => [a]
  | b :: bs => if key a < key b then b :: insertDesc key a bs else a :: b :: bs

/-- Stable descending sort by a numeric key, modelling Python
`list.sort(key=..., reverse=True)`. -/
def sortDesc {α : Type} (key : α → Nat) : List α → List α
  | [] => []
  | a :: as => insertDesc key a (sortDesc key as)

/-- Phase 2 of `discover_urls` with the optional AI filter disabled: score,
sort descending (stable), partition into the four score buckets, concatenate
in bucket order, and return the first `max_pages` URLs together with the
total number of prioritized URLs. -/
def prioritize_urls (urls : List Str) (maxPages : Nat) : List Str × Nat :=
  let url_scores := urls.map (fun u => (u, urlScore u))
  let sorted := sortDesc (fun p => p.2) url_scores
  let high := sorted.filter (fun p => decide (60 ≤ p.2))
  let medium := sorted.filter (fun p => decide (20 ≤ p.2) && decide (p.2 < 60))
  let low := sorted.filter (fun p => decide (0 < p.2) && decide (p.2 < 20))
  let no := sorted.filter (fun p => p.2 == 0)
  let prioritized := (high ++ medium ++ low ++ no).map Prod.fst
  (prioritized.take maxPages, prioritized.length)

/-- Example URL with keyword score 80 (`team`), discovered first. -/
def urlTeam : Str := "https://u.edu/team".toList

/-- Example URL with keyword score 100 (`contact`), discovered second. -/
def urlContact : Str := "https://u.edu/contact".toList

/-- Example URL with keyword score 80 (`people`), discovered third. -/
def urlPeople : Str := "https://u.edu/people".toList


/-!
## LLM field completion (src/ai_extractor.py)

`_call_openrouter` either raises (transport/HTTP error) or returns a dict:
the empty dict `{}` on malformed JSON, else the four-field output of
`_clean_extracted_data`.  One attempt is modelled as
`Except Unit AiDict`; `AiDict := Option AiFields` with `none` for `{}`
(falsy) and `some f` for a four-key dict (truthy even when every value is
`None`).
-/

structure AiFields where
  name : Option Str
  designation : Option Str
  phone : Option Str
  department : Option Str
deriving DecidableEq, Repr

abbrev AiDict := Option AiFields

/-- The retry loop of `extract_contact_info`: attempt 0..max_retries; the
first attempt that does not raise returns its dict; when every attempt
raises the loop ends and `{}` is returned. -/
def aiAttemptLoop : Nat → List (Except Unit AiDict) → AiDict
  | _, [] => none
  | 0, a :: _ =>
    match a with
    | Except.ok d => d
    | Except.error _ => none
  | n + 1, a :: rest =>
    match a with
    | Except.ok d => d
    | Except.error _ => aiAttemptLoop n rest

/-- `AIContactExtractor.extract_contact_info(html_context, email,
max_retries)`: `{}` when the extractor is disabled, else the retry loop
over the transport outcomes. -/
def extract_contact_info (enabled : Bool) (maxRetries : Nat)
    (attempts : List (Except Unit AiDict)) : AiDict :=
  if enabled then aiAttemptLoop maxRetries attempts else none

/-- `if ai_result.get('name') and not contact.get('name'):` fill name. -/
def aiFillName (c : Contact) (f : AiFields) : Contact :=
  if pyTruthy f.name && !pyTruthy c.name then { c with name := f.name } else c

/-- `if ai_result.get('designation') and not contact.get('designation'):`. -/
def aiFillDesignation (c : Contact) (f : AiFields) : Contact :=
  if pyTruthy f.designation && !pyTruthy c.designation
  then { c with designation := f.designation } else c

/-- `if ai_result.get('phone') and not contact.get('phone'):` fill phone. -/
def aiFillPhone (c : Contact) (f : AiFields) : Contact :=
  if pyTruthy f.phone && !pyTruthy c.phone then { c with phone := f.phone } else c

/-- `if ai_result.get('department') and not contact.get('department'):`. -/
def aiFillDepartment (c : Contact) (f : AiFields) : Contact :=
  if pyTruthy f.department && !pyTruthy c.department
  then { c with department := f.department } else c

/-- The `if ai_result:` merge block of `extract_contact_from_context`:
each of name/designation/phone/department is taken from the AI answer only
when the AI value is truthy and the heuristic value is falsy; the empty
dict (`none`) changes nothing. -/
def applyAiResult (c : Contact) (r : AiDict) : Contact :=
  match r with
  | none => c
  | some f => aiFillDepartment (aiFillPhone (aiFillDesignation (aiFillName c f) f) f) f

/-- `needs_ai` trigger: name falsy, or contains `'@'`, or shorter than 3. -/
def needs_ai (c : Contact) : Bool :=
  !pyTruthy c.name || (c.name.getD []).contains '@' ||
    decide ((c.name.getD []).length < 3)

/-!
## Contextual extraction
(src/oxylabs_integration.py, `extract_contact_from_context` lines 236-345
and `find_email_context` lines 347-421)

BeautifulSoup DOM queries are oracle inputs: a `LevelCtx` is what the code
finds in one ancestor (the first `tel:` href, the first heading text that
is non-empty and passes `looks_like_name`, and the sequence of
name/designation texts accepted from class-tagged child elements); a
`TextElemCtx` is the corresponding data for one text node containing the
email in `find_email_context`.  The guards and field updates are embedded
directly.
-/

/-- Python `s.replace('mailto:', '')`: remove every (leftmost-first)
occurrence of `mailto:`. -/
def removeMailto : Str → Str
  | 'm' :: 'a' :: 'i' :: 'l' :: 't' :: 'o' :: ':' :: rest => removeMailto rest
  | c :: cs => c :: removeMailto cs
  | [] => []

/-- Python `s.replace('tel:', '')`: remove every (leftmost-first)
occurrence of `tel:`. -/
def removeTel : Str → Str
  | 't' :: 'e' :: 'l' :: ':' :: rest => removeTel rest
  | c :: cs => c :: removeTel cs
  | [] => []

/-- Python `str.capitalize()`: first character uppercased, rest lowered. -/
def pyCapitalize (w : Str) : Str :=
  match w with
  | [] => []
  | c :: cs => Char.toUpper c :: cs.map pyLowerChar

/-- Strategy 1 of both contextual extractors: when the mailto username is
`firstname.lastname` / `firstname_lastname` with all segments alphabetic
(ignoring hyphens) and longer than 1, synthesize a capitalized fallback
display name, else no name. -/
def fallbackNameFromEmail (email : Str) : Option Str :=
  if email ≠ [] ∧ '@' ∈ email then
    let username := (splitOnChar '@' email).headD []
    if username.contains '.' || username.contains '_' then
      let parts := splitOnChar '.'
        (username.map (fun ch => if ch = '_' then '.' else ch))
      if 2 ≤ parts.length ∧ parts.all (fun q =>
          decide (1 < q.length) && pyIsAlpha (q.filter (fun ch => !(ch == '-'))))
      then some (joinWithChar ' ' (parts.map pyCapitalize))
      else none
    else none
  else none

/-- What one tagged child element of an ancestor contributes: an accepted
name text (class has a name marker and the text passes `looks_like_name`)
and/or an accepted designation text. -/
structure TagCtx where
  nameText : Option Str
  desigText : Option Str

/-- What the code finds in one ancestor level of the mailto anchor. -/
structure LevelCtx where
  telHref : Option Str
  headingName : Option Str
  tags : List TagCtx

/-- `if not contact['phone']: ... contact['phone'] =
tel_links[0]['href'].replace('tel:','').strip()`. -/
def telPhoneStep (c : Contact) (telHref : Option Str) : Contact :=
  if !pyTruthy c.phone then
    match telHref with
    | some href => { c with phone := some (pstrip (removeTel href)) }
    | none => c
  else c

/-- Unconditional name override from an accepted text, when one exists. -/
def nameOverrideStep (c : Contact) (t : Option Str) : Contact :=
  match t with
  | some t => { c with name := some t }
  | none => c

/-- Unconditional designation override from an accepted text. -/
def designationOverrideStep (c : Contact) (t : Option Str) : Contact :=
  match t with
  | some t => { c with designation := some t }
  | none => c

/-- One class-tagged child element: a name override then a designation
override, each occurring only when the element carried an accepted text. -/
def tagStep (acc : Contact) (tg : TagCtx) : Contact :=
  designationOverrideStep (nameOverrideStep acc tg.nameText) tg.desigText

/-- One iteration of the parent-level loop of
`extract_contact_from_context`: phone from the first `tel:` link only when
phone is still falsy; heading name overrides; tagged name/designation texts
override in document order. -/
def applyLevel (c : Contact) (lv : Option LevelCtx) : Contact :=
  match lv with
  | none => c
  | some ctx =>
    ctx.tags.foldl tagStep
      (nameOverrideStep (telPhoneStep c ctx.telHref) ctx.headingName)

/-- `return contact if contact.get('email') else None`. -/
def emitIfEmailTruthy (c : Contact) : Option Contact :=
  if pyTruthy c.email then some c else none

/-- `OxylabsScraper.extract_contact_from_context(email_element, email,
source_url, soup)`: build the contact anchored at `email`, run the
fallback-name strategy, the ancestor-level heuristics, then (when AI is
enabled and `needs_ai`) the LLM completion, and return the contact when its
email is truthy. -/
def extract_contact_from_context (email sourceUrl scrapedDate : Str)
    (levels : List (Option LevelCtx)) (aiEnabled : Bool)
    (aiAttempts : List (Except Unit AiDict)) : Option Contact :=
  let c0 : Contact :=
    { name := fallbackNameFromEmail email, email := some email, phone := none
      designation := none, university := none, department := none
      source_url := sourceUrl, scraped_date := scrapedDate }
  let c1 := levels.foldl applyLevel c0
  let c2 := if aiEnabled && needs_ai c1
    then applyAiResult c1 (extract_contact_info true 2 aiAttempts)
    else c1
  emitIfEmailTruthy c2

/-- What the code finds around one text node containing the email in
`find_email_context`: the first `tel:` href in the parent, the first
heading text passing `looks_like_name` in the context element, and the
name/designation line candidates near the email's line. -/
structure TextElemCtx where
  telHref : Option Str
  headingName : Option Str
  lineName : Option Str
  lineDesignation : Option Str

/-- One iteration of the text-element loop of `find_email_context`: phone
from the first `tel:` link only when phone is still falsy, then the heading
name, the preceding-line name and the designation line, each overriding
when present. -/
def applyTextElem (c : Contact) (ctx : TextElemCtx) : Contact :=
  designationOverrideStep
    (nameOverrideStep
      (nameOverrideStep (telPhoneStep c ctx.telHref) ctx.headingName)
      ctx.lineName)
    ctx.lineDesignation

/-- `OxylabsScraper.find_email_context(soup, email, source_url, ...)`. -/
def find_email_context (email sourceUrl scrapedDate : Str)
    (elems : List TextElemCtx) : Option Contact :=
  let c0 : Contact :=
    { name := fallbackNameFromEmail email, email := some email, phone := none
      designation := none, university := none, department := none
      source_url := sourceUrl, scraped_date := scrapedDate }
  let c := elems.foldl applyTextElem c0
  emitIfEmailTruthy c

/-!
## Page-level extraction
(src/oxylabs_integration.py, `extract_contacts_from_html` lines 134-234,
and src/uni_scraper/spiders/contact_spider.py, `extract_contacts`
lines 74-113)
-/

/-- One `mailto:` anchor found on the page: its `href` attribute, the DOM
context of its ancestors, and the transport outcomes of the LLM call made
for it. -/
structure MailtoLink where
  href : Str
  levels : List (Option LevelCtx)
  aiAttempts : List (Except Unit AiDict)

/-- One plain-text email found on the page with its surrounding text
nodes. -/
structure TextEmail where
  email : Str
  elems : List TextElemCtx

/-- The parsed page as the three tiers see it: the per-element extraction
results for the first contact-card selector with matches (the element-level
routine always returns a record, possibly with both email and phone
falsy), the `mailto:` anchors, and the distinct plain-text emails. -/
structure PageData where
  containerCandidates : List Contact
  mailtoLinks : List MailtoLink
  textEmails : List TextEmail

/-- `OxylabsScraper.extract_contacts_from_html(html_content, source_url)`:
tier 1 keeps container candidates with a truthy email or phone; when tier 1
produced nothing, tier 2 extracts one contact per `mailto:` anchor whose
stripped target is non-empty and contains `'@'`; when tier 2 also produced
nothing, tier 3 extracts one contact per plain-text email. -/
def extract_contacts_from_html (page : PageData) (aiEnabled : Bool)
    (sourceUrl scrapedDate : Str) : List Contact :=
  let tier1 := page.containerCandidates.filter
    (fun c => pyTruthy c.email || pyTruthy c.phone)
  if tier1 ≠ [] then tier1
  else
    let tier2 := page.mailtoLinks.filterMap (fun ml =>
      let em := pstrip (removeMailto ml.href)
      if em ≠ [] ∧ '@' ∈ em then
        extract_contact_from_context em sourceUrl scrapedDate ml.levels
          aiEnabled ml.aiAttempts
      else none)
    if tier2 ≠ [] then tier2
    else page.textEmails.filterMap (fun te =>
      find_email_context te.email sourceUrl scrapedDate te.elems)

/-- `ContactSpider.extract_contacts(response)`: strategy 1 (first CSS
selector with matches) guards each candidate by email-or-phone and returns;
otherwise strategy 2 (table rows / list items) does the same; otherwise
strategy 3 emits the single page-wide candidate when the URL contains a
contact-related keyword and the candidate passes the same guard. -/
def spider_extract_contacts (selectorsMatched : Bool)
    (selectorCandidates : List Contact) (rowsMatched : Bool)
    (rowCandidates : List Contact) (urlKeywordHit : Bool)
    (pageWide : Contact) : List Contact :=
  if selectorsMatched then
    selectorCandidates.filter (fun c => pyTruthy c.email || pyTruthy c.phone)
  else if rowsMatched then
    rowCandidates.filter (fun c => pyTruthy c.email || pyTruthy c.phone)
  else if urlKeywordHit then
    if pyTruthy pageWide.email || pyTruthy pageWide.phone then [pageWide] else []
  else []

/-!
## The Scrapy cleaning pipeline's email cleaner
(src/uni_scraper/pipelines.py, `DataCleaningPipeline.clean_email`)
-/

/-- Character class `[a-zA-Z0-9._%+-]` of the pipeline's email regex. -/
def emailLocalChar (c : Char) : Bool :=
  c.isAlpha || c.isDigit || c = '.' || c = '_' || c = '%' || c = '+' || c = '-'

/-- Character class `[a-zA-Z0-9.-]` of the pipeline's email regex. -/
def emailDomainChar (c : Char) : Bool :=
  c.isAlpha || c.isDigit || c = '.' || c = '-'

/-- Full match of `[a-zA-Z0-9.-]+\.[a-zA-Z]{2,}`: some split point `i`
with a non-empty all-domain-char prefix, a dot, and an all-alphabetic
suffix of length at least 2. -/
def matchDomain (d : Str) : Bool :=
  (List.range d.length).any fun i =>
    decide (0 < i) && (d.take i).all emailDomainChar &&
    (d[i]? == some '.') &&
    (decide (2 ≤ (d.drop (i + 1)).length) && (d.drop (i + 1)).all Char.isAlpha)

/-- Full match of the pipeline regex
`^[a-zA-Z0-9._%+-]+@[a-zA-Z0-9.-]+\.[a-zA-Z]{2,}$`.  No character
class of the regex contains `'@'`, so a match is exactly a two-chunk
`'@'`-split whose first chunk is a non-empty local part and whose second
chunk matches the domain sub-pattern. -/
def matchEmailPattern (s : Str) : Bool :=
  match splitOnChar '@' s with
  | [l, d] => !l.isEmpty && l.all emailLocalChar && matchDomain d
  | _ => false

/-- Python `re.sub(r'^mailto:', '', s)`: drop the prefix when present. -/
def removeMailtoPre (s : Str) : Str :=
  if "mailto:".toList.isPrefixOf s then s.drop 7 else s

/-- `DataCleaningPipeline.clean_email(email)`: lowercase, strip, drop a
`mailto:` prefix, return the string when it matches the address regex,
else `None`. -/
def clean_email (email : Str) : Option Str :=
  let e := pstrip (email.map pyLowerChar)
  let e2 := removeMailtoPre e
  if matchEmailPattern e2 then some e2 else none

/-- Concrete page for the C5 witness: no contact cards, one mailto link. -/
def pageW : PageData :=
  { containerCandidates := []
    mailtoLinks := [{ href := "mailto:x@y.ed".toList, levels := []
                      aiAttempts := [] }]
    textEmails := [] }

/-- The contact the C5 witness page yields. -/
def contactW : Contact :=
  { name := none, email := some "x@y.ed".toList, phone := none
    designation := none, university := none, department := none
    source_url := "u".toList, scraped_date := "d".toList }

/-- A phone-only candidate emitted by the spider's strategy 1. -/
def spiderCandW : Contact :=
  { name := some "Front Desk".toList, email := none
    phone := some "+60 3-7491 8622".toList, designation := none
    university := none, department := none
    source_url := "s".toList, scraped_date := "d".toList }

/-- Heuristic-populated contact for the C8 witness. -/
def heurContact : Contact :=
  { name := some "Dr. Jane Smith".toList
    email := some "jane@uni.edu".toList
    phone := some "+60 3-7491 8622".toList
    designation := some "Professor".toList
    university := some "Uni".toList
    department := some "Math".toList
    source_url := "u".toList, scraped_date := "d".toList }

/-- Conflicting LLM answer for the C8 witness. -/
def aiAnswerW : AiFields :=
  { name := some "Wrong Name".toList
    designation := some "Wrong Title".toList
    phone := some "+1 555 000 0000".toList
    department := some "Wrong Dept".toList }

/-!
## Basic facts about the string helpers
-/

lemma dropWhile_idem (p : Char → Bool) (l : Str) :
    (l.dropWhile p).dropWhile p = l.dropWhile p := by
  induction l with
  | nil => rfl
  | cons c cs ih =>
    by_cases h : p c
    · simp [List.dropWhile_cons, h, ih]
    · simp [List.dropWhile_cons, h]

lemma ltrim_ltrim (l : Str) : ltrim (ltrim l) = ltrim l := dropWhile_idem _ _

lemma rtrim_rtrim (l : Str) : rtrim (rtrim l) = rtrim l := by
  unfold rtrim
  rw [List.reverse_reverse, ltrim_ltrim]

lemma ltrim_head_not_ws (l : Str) (c : Char) (h : (ltrim l).head? = some c) :
    pyWs c = false := by
  induction l with
  | nil => simp [ltrim] at h
  | cons d ds ih =>
    by_cases hd : pyWs d
    · rw [show ltrim (d :: ds) = ltrim ds by simp [ltrim, List.dropWhile_cons, hd]] at h
      exact ih h
    · rw [show ltrim (d :: ds) = d :: ds by simp [ltrim, List.dropWhile_cons, hd]] at h
      simp at h
      rw [← h]
      simpa using hd

lemma headOk_ltrim (l : Str) : headOk (ltrim l) = true := by
  unfold headOk
  cases h : (ltrim l).head? with
  | none => rfl
  | some c => simpa using ltrim_head_not_ws l c h

lemma ltrim_eq_self_of_headOk {l : Str} (h : headOk l = true) : ltrim l = l := by
  cases l with
  | nil => rfl
  | cons c cs =>
    unfold headOk at h
    simp at h
    simp [ltrim, List.dropWhile_cons, h]

lemma rtrim_prefix_self (l : Str) : rtrim l <+: l := by
  have h : (ltrim l.reverse).reverse <+: l.reverse.reverse :=
    List.reverse_prefix.mpr (List.dropWhile_suffix pyWs)
  rw [List.reverse_reverse] at h
  exact h

lemma head?_of_prefix_left {l m : Str} (h : l <+: m) (hne : l ≠ []) : m.head? = l.head? := by
  obtain ⟨t, rfl⟩ := h
  cases l with
  | nil => exact absurd rfl hne
  | cons c cs => simp

lemma headOk_pstrip (l : Str) : headOk (pstrip l) = true := by
  unfold headOk
  cases h : (pstrip l).head? with
  | none => rfl
  | some c =>
    have hne : pstrip l ≠ [] := by
      intro he
      rw [he] at h
      simp at h
    have hpre : pstrip l <+: ltrim l := rtrim_prefix_self (ltrim l)
    have heq : (ltrim l).head? = (pstrip l).head? := head?_of_prefix_left hpre hne
    simpa using ltrim_head_not_ws l c (by rw [heq, h])

lemma pstrip_reverse_eq (l : Str) : (pstrip l).reverse = ltrim ((ltrim l).reverse) := by
  unfold pstrip rtrim
  rw [List.reverse_reverse]

lemma headOk_pstrip_reverse (l : Str) : headOk (pstrip l).reverse = true := by
  rw [pstrip_reverse_eq]
  exact headOk_ltrim _

lemma pstrip_eq_self {l : Str} (h1 : headOk l = true) (h2 : headOk l.reverse = true) :
    pstrip l = l := by
  unfold pstrip rtrim
  rw [ltrim_eq_self_of_headOk h1, ltrim_eq_self_of_headOk h2, List.reverse_reverse]

lemma pstrip_idem (l : Str) : pstrip (pstrip l) = pstrip l :=
  pstrip_eq_self (headOk_pstrip l) (headOk_pstrip_reverse l)

lemma headOk_append_cons {a : Str} (b : Str) {c : Char} (hc : pyWs c = false)
    (ha : headOk a = true) : headOk (a ++ c :: b) = true := by
  cases a with
  | nil => simp [headOk, hc]
  | cons x xs =>
    unfold headOk at ha ⊢
    simpa using ha

lemma count_ltrim (ch : Char) (hch : pyWs ch = false) (l : Str) :
    (ltrim l).count ch = l.count ch := by
  induction l with
  | nil => rfl
  | cons c cs ih =>
    by_cases hc : pyWs c
    · have hne : ¬(c == ch) = true := by
        intro hb
        rw [show c = ch from by simpa using hb] at hc
        rw [hch] at hc
        exact Bool.noConfusion hc
      rw [show ltrim (c :: cs) = ltrim cs by simp [ltrim, List.dropWhile_cons, hc]]
      rw [List.count_cons, if_neg hne]
      simpa using ih
    · rw [show ltrim (c :: cs) = c :: cs by simp [ltrim, List.dropWhile_cons, hc]]

lemma count_pstrip (ch : Char) (hch : pyWs ch = false) (l : Str) :
    (pstrip l).count ch = l.count ch := by
  unfold pstrip rtrim
  rw [← List.count_reverse ch ((ltrim (ltrim l).reverse).reverse), List.reverse_reverse,
    count_ltrim ch hch, List.count_reverse, count_ltrim ch hch]

lemma mem_pstrip_of_mem {ch : Char} (hch : pyWs ch = false) {l : Str} (h : ch ∈ l) :
    ch ∈ pstrip l := by
  rw [← List.count_pos_iff] at h ⊢
  rw [count_pstrip ch hch]
  exact h

lemma mem_of_mem_pstrip {ch : Char} {l : Str} (h : ch ∈ pstrip l) : ch ∈ l := by
  have h1 : pstrip l <+: ltrim l := rtrim_prefix_self (ltrim l)
  have h2 : ltrim l <:+ l := List.dropWhile_suffix pyWs
  exact h2.subset (h1.subset h)

lemma splitOnChar_ne_nil (sep : Char) (l : Str) : splitOnChar sep l ≠ [] := by
  induction l with
  | nil => simp [splitOnChar]
  | cons c cs ih =>
    unfold splitOnChar
    cases h : splitOnChar sep cs with
    | nil => simp
    | cons hd t => by_cases hc : c = sep <;> simp [hc]

lemma splitOnChar_cons_eq (sep c : Char) (cs : Str) (hd : Str) (t : List Str)
    (h : splitOnChar sep cs = hd :: t) :
    splitOnChar sep (c :: cs) =
      if c = sep then [] :: hd :: t else (c :: hd) :: t := by
  unfold splitOnChar
  rw [h]

lemma splitOnChar_length (sep : Char) (l : Str) :
    (splitOnChar sep l).length = l.count sep + 1 := by
  induction l with
  | nil => simp [splitOnChar]
  | cons c cs ih =>
    cases h : splitOnChar sep cs with
    | nil => exact absurd h (splitOnChar_ne_nil sep cs)
    | cons hd t =>
      have ihlen : (hd :: t).length = cs.count sep + 1 := h ▸ ih
      rw [splitOnChar_cons_eq sep c cs hd t h]
      by_cases hc : c = sep
      · subst hc
        rw [if_pos rfl, List.count_cons, if_pos (by simp)]
        simp only [List.length_cons] at ihlen ⊢
        omega
      · rw [if_neg hc, List.count_cons, if_neg (by simpa using hc)]
        simp only [List.length_cons] at ihlen ⊢
        omega

lemma not_mem_of_mem_splitOnChar (sep : Char) (l : Str) :
    ∀ part ∈ splitOnChar sep l, sep ∉ part := by
  induction l with
  | nil =>
    intro part hp
    simp [splitOnChar] at hp
    simp [hp]
  | cons c cs ih =>
    intro part hp
    cases h : splitOnChar sep cs with
    | nil => exact absurd h (splitOnChar_ne_nil sep cs)
    | cons hd t =>
      rw [splitOnChar_cons_eq sep c cs hd t h] at hp
      have ihhd : sep ∉ hd := ih hd (by rw [h]; exact List.mem_cons_self hd t)
      by_cases hc : c = sep
      · rw [if_pos hc] at hp
        rcases List.mem_cons.mp hp with hp | hp
        · simp [hp]
        · rcases List.mem_cons.mp hp with hp | hp
          · rw [hp]; exact ihhd
          · exact ih part (by rw [h]; exact List.mem_cons_of_mem hd hp)
      · rw [if_neg hc] at hp
        rcases List.mem_cons.mp hp with hp | hp
        · rw [hp]
          intro hmem
          rcases List.mem_cons.mp hmem with hmem | hmem
          · exact hc hmem.symm
          · exact ihhd hmem
        · exact ih part (by rw [h]; exact List.mem_cons_of_mem hd hp)

lemma joinWithChar_splitOnChar (sep : Char) (l : Str) :
    joinWithChar sep (splitOnChar sep l) = l := by
  induction l with
  | nil => simp [splitOnChar, joinWithChar]
  | cons c cs ih =>
    cases h : splitOnChar sep cs with
    | nil => exact absurd h (splitOnChar_ne_nil sep cs)
    | cons hd t =>
      rw [h] at ih
      rw [splitOnChar_cons_eq sep c cs hd t h]
      by_cases hc : c = sep
      · subst hc
        rw [if_pos rfl]
        show ([] : Str) ++ c :: joinWithChar c (hd :: t) = c :: cs
        rw [ih]
        rfl
      · rw [if_neg hc]
        cases t with
        | nil =>
          have hcs2 : hd = cs := ih
          show (c :: hd : Str) = c :: cs
          rw [hcs2]
        | cons t0 ts =>
          show (c :: hd) ++ sep :: joinWithChar sep (t0 :: ts) = c :: cs
          rw [← ih]
          rfl

lemma splitOnChar_no_sep {sep : Char} {b : Str} (hb : sep ∉ b) :
    splitOnChar sep b = [b] := by
  induction b with
  | nil => rfl
  | cons c cs ih =>
    have hc : c ≠ sep := fun h => hb (h ▸ List.mem_cons_self c cs)
    have hcs : sep ∉ cs := fun h => hb (List.mem_cons_of_mem c h)
    rw [splitOnChar_cons_eq sep c cs cs [] (ih hcs), if_neg hc]

lemma splitOnChar_sep_cons (sep : Char) (b : Str) :
    splitOnChar sep (sep :: b) = [] :: splitOnChar sep b := by
  cases h : splitOnChar sep b with
  | nil => exact absurd h (splitOnChar_ne_nil sep b)
  | cons hd t => rw [splitOnChar_cons_eq sep sep b hd t h, if_pos rfl]

lemma splitOnChar_append_sep {sep : Char} {a : Str} (b : Str) (ha : sep ∉ a) :
    splitOnChar sep (a ++ sep :: b) = a :: splitOnChar sep b := by
  induction a with
  | nil => simpa using splitOnChar_sep_cons sep b
  | cons c cs ih =>
    have hc : c ≠ sep := fun h => ha (h ▸ List.mem_cons_self c cs)
    have hcs : sep ∉ cs := fun h => ha (List.mem_cons_of_mem c h)
    show splitOnChar sep (c :: (cs ++ sep :: b)) = (c :: cs) :: splitOnChar sep b
    cases h : splitOnChar sep b with
    | nil => exact absurd h (splitOnChar_ne_nil sep b)
    | cons hd t =>
      have hmid : splitOnChar sep (cs ++ sep :: b) = cs :: hd :: t := by
        rw [ih hcs, h]
      rw [splitOnChar_cons_eq sep c _ cs (hd :: t) hmid, if_neg hc]

lemma splitOnChar_two (sep : Char) {a b : Str} (ha : sep ∉ a) (hb : sep ∉ b) :
    splitOnChar sep (a ++ sep :: b) = [a, b] := by
  rw [splitOnChar_append_sep b ha, splitOnChar_no_sep hb]

/-!
## Idempotence of the per-field cleaners
-/

lemma at_not_ws : pyWs '@' = false := by decide

lemma cleanEmailField_some_eq (e : Str) (h1 : e ≠ []) (h2 : '@' ∈ e) :
    cleanEmailField (some e) =
      match splitOnChar '@' (pstrip e) with
      | [p0, p1] => some (pstrip p0 ++ '@' :: pstrip p1)
      | _ => some (pstrip e) := by
  show (if e ≠ [] ∧ '@' ∈ e then
      match splitOnChar '@' (pstrip e) with
      | [p0, p1] => some (pstrip p0 ++ '@' :: pstrip p1)
      | _ => some (pstrip e)
    else none) = _
  rw [if_pos ⟨h1, h2⟩]

lemma cleanEmailField_none_eq (e : Str) (h : ¬(e ≠ [] ∧ '@' ∈ e)) :
    cleanEmailField (some e) = none := by
  show (if e ≠ [] ∧ '@' ∈ e then
      match splitOnChar '@' (pstrip e) with
      | [p0, p1] => some (pstrip p0 ++ '@' :: pstrip p1)
      | _ => some (pstrip e)
    else none) = none
  rw [if_neg h]

lemma cleanEmailField_fixed (s : Str) (h1 : s ≠ []) (h2 : '@' ∈ s) (h3 : pstrip s = s)
    (h4 : ∀ p0 p1, splitOnChar '@' s = [p0, p1] → pstrip p0 = p0 ∧ pstrip p1 = p1) :
    cleanEmailField (some s) = some s := by
  rw [cleanEmailField_some_eq s h1 h2, h3]
  rcases hs : splitOnChar '@' s with _ | ⟨p0, _ | ⟨p1, _ | ⟨p2, rest⟩⟩⟩
  · rfl
  · rfl
  · show some (pstrip p0 ++ '@' :: pstrip p1) = some s
    obtain ⟨hq0, hq1⟩ := h4 p0 p1 hs
    have hjoin : p0 ++ '@' :: p1 = s := by
      have hj := joinWithChar_splitOnChar '@' s
      rw [hs] at hj
      exact hj
    rw [hq0, hq1, hjoin]
  · rfl

lemma cleanEmailField_idem (eo : Option Str) :
    cleanEmailField (cleanEmailField eo) = cleanEmailField eo := by
  match eo with
  | none => rfl
  | some e =>
    by_cases hge : e ≠ [] ∧ '@' ∈ e
    · have hat : ('@' : Char) ∈ pstrip e := mem_pstrip_of_mem at_not_ws hge.2
      have hne' : pstrip e ≠ [] := by
        intro h
        rw [h] at hat
        exact absurd hat (List.not_mem_nil _)
      rw [cleanEmailField_some_eq e hge.1 hge.2]
      rcases hs : splitOnChar '@' (pstrip e) with _ | ⟨p0, _ | ⟨p1, _ | ⟨p2, rest⟩⟩⟩
      · exact absurd hs (splitOnChar_ne_nil _ _)
      · exfalso
        have hlen := splitOnChar_length '@' (pstrip e)
        rw [hs] at hlen
        simp at hlen
        exact List.count_eq_zero.mp hlen hat
      · show cleanEmailField (some (pstrip p0 ++ '@' :: pstrip p1)) =
          some (pstrip p0 ++ '@' :: pstrip p1)
        have hp0 : ('@' : Char) ∉ p0 :=
          not_mem_of_mem_splitOnChar '@' (pstrip e) p0 (by rw [hs]; simp)
        have hp1 : ('@' : Char) ∉ p1 :=
          not_mem_of_mem_splitOnChar '@' (pstrip e) p1 (by rw [hs]; simp)
        have hsp0 : ('@' : Char) ∉ pstrip p0 := fun h => hp0 (mem_of_mem_pstrip h)
        have hsp1 : ('@' : Char) ∉ pstrip p1 := fun h => hp1 (mem_of_mem_pstrip h)
        apply cleanEmailField_fixed
        · simp
        · simp
        · apply pstrip_eq_self
          · exact headOk_append_cons _ at_not_ws (headOk_pstrip p0)
          · have hrev : (pstrip p0 ++ '@' :: pstrip p1).reverse =
                (pstrip p1).reverse ++ '@' :: (pstrip p0).reverse := by
              simp
            rw [hrev]
            exact headOk_append_cons _ at_not_ws (headOk_pstrip_reverse p1)
        · intro q0 q1 hq
          rw [splitOnChar_two '@' hsp0 hsp1] at hq
          injection hq with hq0 hq'
          injection hq' with hq1 _
          constructor
          · rw [← hq0, pstrip_idem]
          · rw [← hq1, pstrip_idem]
      · show cleanEmailField (some (pstrip e)) = some (pstrip e)
        apply cleanEmailField_fixed _ hne' hat (pstrip_idem e)
        intro q0 q1 hq
        rw [hs] at hq
        exact absurd hq (by simp)
    · rw [cleanEmailField_none_eq e hge]
      rfl

lemma cleanPhoneField_some_pos (p : Str) (hp : p ≠ [])
    (hcond : pstrip p ≠ [] ∧ 7 ≤ (pstrip p).length ∧ ¬pyIsDigit (pstrip p)) :
    cleanPhoneField (some p) = some (pstrip p) := by
  show (if p ≠ [] then
      if pstrip p ≠ [] ∧ 7 ≤ (pstrip p).length ∧ ¬pyIsDigit (pstrip p)
      then some (pstrip p) else none
    else none) = some (pstrip p)
  rw [if_pos hp, if_pos hcond]

lemma cleanPhoneField_some_neg (p : Str)
    (h : ¬(p ≠ []) ∨ ¬(pstrip p ≠ [] ∧ 7 ≤ (pstrip p).length ∧ ¬pyIsDigit (pstrip p))) :
    cleanPhoneField (some p) = none := by
  show (if p ≠ [] then
      if pstrip p ≠ [] ∧ 7 ≤ (pstrip p).length ∧ ¬pyIsDigit (pstrip p)
      then some (pstrip p) else none
    else none) = none
  rcases h with h | h
  · rw [if_neg h]
  · by_cases hp : p ≠ []
    · rw [if_pos hp, if_neg h]
    · rw [if_neg hp]

lemma cleanPhoneField_idem (po : Option Str) :
    cleanPhoneField (cleanPhoneField po) = cleanPhoneField po := by
  match po with
  | none => rfl
  | some p =>
    by_cases hp : p ≠ []
    · by_cases hcond : pstrip p ≠ [] ∧ 7 ≤ (pstrip p).length ∧ ¬pyIsDigit (pstrip p)
      · rw [cleanPhoneField_some_pos p hp hcond]
        rw [cleanPhoneField_some_pos (pstrip p) hcond.1 (by rw [pstrip_idem]; exact hcond)]
        rw [pstrip_idem]
      · rw [cleanPhoneField_some_neg p (Or.inr hcond)]
        rfl
    · rw [cleanPhoneField_some_neg p (Or.inl hp)]
      rfl

lemma cleanTextField_some_pos (s : Str) (hs : s ≠ [])
    (hcond : pstrip s ≠ [] ∧ 2 < (pstrip s).length) :
    cleanTextField (some s) = some (pstrip s) := by
  show (if s ≠ [] then
      if pstrip s ≠ [] ∧ 2 < (pstrip s).length then some (pstrip s) else none
    else none) = some (pstrip s)
  rw [if_pos hs, if_pos hcond]

lemma cleanTextField_some_neg (s : Str)
    (h : ¬(s ≠ []) ∨ ¬(pstrip s ≠ [] ∧ 2 < (pstrip s).length)) :
    cleanTextField (some s) = none := by
  show (if s ≠ [] then
      if pstrip s ≠ [] ∧ 2 < (pstrip s).length then some (pstrip s) else none
    else none) = none
  rcases h with h | h
  · rw [if_neg h]
  · by_cases hs : s ≠ []
    · rw [if_pos hs, if_neg h]
    · rw [if_neg hs]

lemma cleanTextField_idem (so : Option Str) :
    cleanTextField (cleanTextField so) = cleanTextField so := by
  match so with
  | none => rfl
  | some s =>
    by_cases hs : s ≠ []
    · by_cases hcond : pstrip s ≠ [] ∧ 2 < (pstrip s).length
      · rw [cleanTextField_some_pos s hs hcond]
        rw [cleanTextField_some_pos (pstrip s) hcond.1 (by rw [pstrip_idem]; exact hcond)]
        rw [pstrip_idem]
      · rw [cleanTextField_some_neg s (Or.inr hcond)]
        rfl
    · rw [cleanTextField_some_neg s (Or.inl hs)]
      rfl

lemma clean_contact_data_idem (c : Contact) :
    clean_contact_data (clean_contact_data c) = clean_contact_data c := by
  unfold clean_contact_data
  simp [cleanTextField_idem, cleanEmailField_idem, cleanPhoneField_idem]

/-!
## Facts about `clean_and_deduplicate_contacts`
-/

lemma clean_email_proj (c : Contact) :
    (clean_contact_data c).email = cleanEmailField c.email := rfl

lemma cleanEmailField_at_mem {eo : Option Str} {e : Str}
    (h : cleanEmailField eo = some e) : '@' ∈ e := by
  match eo with
  | none => exact absurd h (by simp [cleanEmailField])
  | some e0 =>
    by_cases hge : e0 ≠ [] ∧ '@' ∈ e0
    · have hat : ('@' : Char) ∈ pstrip e0 := mem_pstrip_of_mem at_not_ws hge.2
      rw [cleanEmailField_some_eq e0 hge.1 hge.2] at h
      rcases hs : splitOnChar '@' (pstrip e0) with _ | ⟨p0, _ | ⟨p1, _ | ⟨p2, rest⟩⟩⟩ <;>
        rw [hs] at h
      · exact absurd hs (splitOnChar_ne_nil _ _)
      · injection h with h
        rw [← h]
        exact hat
      · injection h with h
        rw [← h]
        simp
      · injection h with h
        rw [← h]
        exact hat
    · rw [cleanEmailField_none_eq e0 hge] at h
      exact absurd h (by simp)

lemma cleanEmailField_some_ne_nil {eo : Option Str} {e : Str}
    (h : cleanEmailField eo = some e) : e ≠ [] := by
  intro hnil
  rw [hnil] at h
  exact absurd (cleanEmailField_at_mem h) (List.not_mem_nil _)

lemma cleanAndDedupAux_cons (seen : List Str) (c : Contact) (cs : List Contact) :
    cleanAndDedupAux seen (c :: cs) =
      match (clean_contact_data c).email with
      | some e =>
        if e ≠ [] ∧ e ∉ seen
        then clean_contact_data c :: cleanAndDedupAux (e :: seen) cs
        else cleanAndDedupAux seen cs
      | none => cleanAndDedupAux seen cs := rfl

lemma cleanAndDedupAux_cons_new {seen : List Str} {c : Contact} {e : Str}
    (cs : List Contact) (h : (clean_contact_data c).email = some e)
    (hnew : e ≠ [] ∧ e ∉ seen) :
    cleanAndDedupAux seen (c :: cs) =
      clean_contact_data c :: cleanAndDedupAux (e :: seen) cs := by
  rw [cleanAndDedupAux_cons, h]
  show (if e ≠ [] ∧ e ∉ seen
      then clean_contact_data c :: cleanAndDedupAux (e :: seen) cs
      else cleanAndDedupAux seen cs) = _
  rw [if_pos hnew]

lemma cleanAndDedupAux_cons_old {seen : List Str} {c : Contact} {e : Str}
    (cs : List Contact) (h : (clean_contact_data c).email = some e)
    (hold : ¬(e ≠ [] ∧ e ∉ seen)) :
    cleanAndDedupAux seen (c :: cs) = cleanAndDedupAux seen cs := by
  rw [cleanAndDedupAux_cons, h]
  show (if e ≠ [] ∧ e ∉ seen
      then clean_contact_data c :: cleanAndDedupAux (e :: seen) cs
      else cleanAndDedupAux seen cs) = _
  rw [if_neg hold]

lemma cleanAndDedupAux_cons_none {seen : List Str} {c : Contact}
    (cs : List Contact) (h : (clean_contact_data c).email = none) :
    cleanAndDedupAux seen (c :: cs) = cleanAndDedupAux seen cs := by
  rw [cleanAndDedupAux_cons, h]

/-- Every record the deduplication loop emits carries a non-empty email not
yet seen, and is a fixed point of the cleaner; distinct emitted records have
distinct emails. -/
lemma cleanAndDedupAux_invariant (cs : List Contact) : ∀ seen : List Str,
    (∀ c ∈ cleanAndDedupAux seen cs,
      ∃ e, c.email = some e ∧ e ≠ [] ∧ e ∉ seen ∧ clean_contact_data c = c) ∧
    (cleanAndDedupAux seen cs).Pairwise (fun a b => a.email ≠ b.email) := by
  induction cs with
  | nil => intro seen; exact ⟨by intro c hc; simp [cleanAndDedupAux] at hc, by
      simp [cleanAndDedupAux]⟩
  | cons c cs ih =>
    intro seen
    cases h : (clean_contact_data c).email with
    | some e =>
      by_cases hnew : e ≠ [] ∧ e ∉ seen
      · rw [cleanAndDedupAux_cons_new cs h hnew]
        obtain ⟨ihmem, ihpw⟩ := ih (e :: seen)
        constructor
        · intro c' hc'
          rcases List.mem_cons.mp hc' with hc' | hc'
          · refine ⟨e, ?_, hnew.1, hnew.2, ?_⟩
            · rw [hc']
              exact h
            · rw [hc']
              exact clean_contact_data_idem c
          · obtain ⟨e', he', hne', hseen', hfix'⟩ := ihmem c' hc'
            exact ⟨e', he', hne', fun hmem => hseen' (List.mem_cons_of_mem _ hmem), hfix'⟩
        · refine List.Pairwise.cons ?_ ihpw
          intro c' hc' heq
          obtain ⟨e', he', hne', hseen', hfix'⟩ := ihmem c' hc'
          rw [h, he'] at heq
          injection heq with heq
          exact hseen' (heq ▸ List.mem_cons_self e seen)
      · rw [cleanAndDedupAux_cons_old cs h hnew]
        exact ih seen
    | none =>
      rw [cleanAndDedupAux_cons_none cs h]
      exact ih seen

/-- A list of already-clean records with fresh pairwise-distinct non-empty
emails passes through the deduplication loop unchanged. -/
lemma cleanAndDedupAux_self (ys : List Contact) : ∀ seen : List Str,
    (∀ c ∈ ys, ∃ e, c.email = some e ∧ e ≠ [] ∧ e ∉ seen ∧ clean_contact_data c = c) →
    ys.Pairwise (fun a b => a.email ≠ b.email) →
    cleanAndDedupAux seen ys = ys := by
  induction ys with
  | nil => intro seen _ _; rfl
  | cons c cs ih =>
    intro seen hmem hpw
    obtain ⟨e, he, hne, hseen, hfix⟩ := hmem c (List.mem_cons_self c cs)
    have hce : (clean_contact_data c).email = some e := by rw [hfix]; exact he
    rw [cleanAndDedupAux_cons_new cs hce ⟨hne, hseen⟩, hfix]
    congr 1
    apply ih (e :: seen)
    · intro c' hc'
      obtain ⟨e', he', hne', hseen', hfix'⟩ := hmem c' (List.mem_cons_of_mem _ hc')
      refine ⟨e', he', hne', ?_, hfix'⟩
      intro hmem'
      rcases List.mem_cons.mp hmem' with h' | h'
      · have hneq := (List.pairwise_cons.mp hpw).1 c' hc'
        rw [he, he', h'] at hneq
        exact hneq rfl
      · exact hseen' h'
    · exact (List.pairwise_cons.mp hpw).2

lemma cleanEmailField_ne_none {e : Str} (hge : e ≠ [] ∧ '@' ∈ e) :
    cleanEmailField (some e) ≠ none := by
  rw [cleanEmailField_some_eq e hge.1 hge.2]
  rcases hs : splitOnChar '@' (pstrip e) with _ | ⟨p0, _ | ⟨p1, _ | ⟨p2, rest⟩⟩⟩ <;> simp

/-!
## Claim theorems on cleaning and deduplication
-/

/-- C1 (counterexample): the claim says a record whose cleaned email is null
is kept by the normalize-and-deduplicate step; on `recNoEmail` (cleaned
email `None`) the code returns the empty list, so the record is dropped. -/
theorem C1_counterexample :
    (clean_contact_data recNoEmail).email = none ∧
    clean_and_deduplicate_contacts [recNoEmail] = [] := by decide

/-- C1 (amended): every record whose cleaned email is null is dropped by
`clean_and_deduplicate_contacts`; every record in the output has a non-null
(indeed non-empty) email. -/
theorem C1_null_email_dropped (xs : List Contact) (c : Contact)
    (h : c ∈ clean_and_deduplicate_contacts xs) : c.email ≠ none := by
  obtain ⟨e, he, _, _, _⟩ := (cleanAndDedupAux_invariant xs []).1 c h
  rw [he]
  simp

/-- Witness for `C1_null_email_dropped` at a concrete input. -/
theorem C1_witness :
    clean_contact_data recKept ∈ clean_and_deduplicate_contacts [recKept] ∧
    (clean_contact_data recKept).email ≠ none := by
  have h : clean_contact_data recKept ∈ clean_and_deduplicate_contacts [recKept] := by
    decide
  exact ⟨h, C1_null_email_dropped [recKept] _ h⟩

/-- C3 (counterexample): the claim says the cleaned email is non-null only
when the trimmed input has exactly one `'@'` with both halves non-empty;
on the email `"a@@b"` (two `'@'`) the code still returns a non-null
email `"a@@b"`, while the spec-side rule rejects it. -/
theorem C3_counterexample :
    recDoubleAt.email = some "a@@b".toList ∧
    (clean_contact_data recDoubleAt).email = some "a@@b".toList ∧
    specEmailWellFormedB "a@@b".toList = false := by decide

/-- C3 (amended): the cleaned email is non-null exactly when the raw email
is a non-empty string containing at least one `'@'`; multiple `'@'` signs
or empty halves are not rejected by the code. -/
theorem C3_email_nonnull_iff (c : Contact) :
    (clean_contact_data c).email ≠ none ↔
      ∃ e, c.email = some e ∧ e ≠ [] ∧ '@' ∈ e := by
  rw [clean_email_proj]
  rcases h : c.email with _ | e
  · simp [cleanEmailField]
  · by_cases hge : e ≠ [] ∧ '@' ∈ e
    · constructor
      · intro _
        exact ⟨e, rfl, hge.1, hge.2⟩
      · intro _
        exact cleanEmailField_ne_none hge
    · rw [cleanEmailField_none_eq e hge]
      constructor
      · intro hcontra
        exact absurd rfl hcontra
      · rintro ⟨e', he', hne', hat'⟩
        injection he' with heq
        exact absurd ⟨heq ▸ hne', heq ▸ hat'⟩ hge

/-- C4: two records with the same non-null cleaned email deduplicate to
exactly the first record's cleaned form; the second is dropped whatever its
other fields hold. -/
theorem C4_first_seen_wins (c1 c2 : Contact) (e : Str)
    (h1 : (clean_contact_data c1).email = some e)
    (h2 : (clean_contact_data c2).email = some e) :
    clean_and_deduplicate_contacts [c1, c2] = [clean_contact_data c1] := by
  have h1' : cleanEmailField c1.email = some e := by
    rw [← clean_email_proj]
    exact h1
  have hne : e ≠ [] := cleanEmailField_some_ne_nil h1'
  unfold clean_and_deduplicate_contacts
  rw [cleanAndDedupAux_cons_new [c2] h1 ⟨hne, List.not_mem_nil e⟩]
  rw [cleanAndDedupAux_cons_old [] h2 (by simp)]
  rfl

/-- Witness for `C4_first_seen_wins` at concrete records differing in every
other field. -/
theorem C4_witness :
    (clean_contact_data recDupA).email = some "alice@uni.edu".toList ∧
    (clean_contact_data recDupB).email = some "alice@uni.edu".toList ∧
    clean_and_deduplicate_contacts [recDupA, recDupB] = [clean_contact_data recDupA] := by
  have h1 : (clean_contact_data recDupA).email = some "alice@uni.edu".toList := by decide
  have h2 : (clean_contact_data recDupB).email = some "alice@uni.edu".toList := by decide
  exact ⟨h1, h2, C4_first_seen_wins recDupA recDupB _ h1 h2⟩

/-- C7: `clean_contact_data` is idempotent on every record and field. -/
theorem C7_clean_idempotent (c : Contact) :
    clean_contact_data (clean_contact_data c) = clean_contact_data c :=
  clean_contact_data_idem c

/-- C10: `clean_and_deduplicate_contacts` is idempotent: its output records
are already clean and carry pairwise-distinct non-null emails, so a second
pass returns the output unchanged. -/
theorem C10_clean_and_dedup_idempotent (xs : List Contact) :
    clean_and_deduplicate_contacts (clean_and_deduplicate_contacts xs) =
      clean_and_deduplicate_contacts xs := by
  unfold clean_and_deduplicate_contacts
  obtain ⟨hmem, hpw⟩ := cleanAndDedupAux_invariant xs []
  exact cleanAndDedupAux_self _ [] hmem hpw

/-!
## Facts about the URL prioritizer
-/

lemma insertDesc_perm {α : Type} (key : α → Nat) (a : α) (l : List α) :
    (insertDesc key a l).Perm (a :: l) := by
  induction l with
  | nil => exact List.Perm.refl _
  | cons b bs ih =>
    by_cases h : key a < key b
    · simp only [insertDesc, if_pos h]
      exact (ih.cons b).trans (List.Perm.swap a b bs)
    · simp only [insertDesc, if_neg h]
      exact List.Perm.refl _

lemma sortDesc_perm {α : Type} (key : α → Nat) (l : List α) :
    (sortDesc key l).Perm l := by
  induction l with
  | nil => exact List.Perm.refl _
  | cons a as ih =>
    show (insertDesc key a (sortDesc key as)).Perm (a :: as)
    exact (insertDesc_perm key a (sortDesc key as)).trans (ih.cons a)

lemma insertDesc_pairwise {α : Type} (key : α → Nat) (a : α) {l : List α}
    (h : l.Pairwise (fun x y => key y ≤ key x)) :
    (insertDesc key a l).Pairwise (fun x y => key y ≤ key x) := by
  induction l with
  | nil => simp [insertDesc]
  | cons b bs ih =>
    obtain ⟨hb, hbs⟩ := List.pairwise_cons.mp h
    by_cases hab : key a < key b
    · simp only [insertDesc, if_pos hab]
      refine List.pairwise_cons.mpr ⟨?_, ih hbs⟩
      intro x hx
      have hx' : x ∈ a :: bs := (insertDesc_perm key a bs).subset hx
      rcases List.mem_cons.mp hx' with rfl | hx''
      · exact le_of_lt hab
      · exact hb x hx''
    · simp only [insertDesc, if_neg hab]
      push_neg at hab
      refine List.pairwise_cons.mpr ⟨?_, h⟩
      intro x hx
      rcases List.mem_cons.mp hx with rfl | hx'
      · exact hab
      · exact le_trans (hb x hx') hab

lemma sortDesc_pairwise {α : Type} (key : α → Nat) (l : List α) :
    (sortDesc key l).Pairwise (fun x y => key y ≤ key x) := by
  induction l with
  | nil => simp [sortDesc]
  | cons a as ih => exact insertDesc_pairwise key a ih

lemma filter_insertDesc {α : Type} (key : α → Nat) (v : Nat) (a : α) (l : List α) :
    (insertDesc key a l).filter (fun x => key x == v) =
      if key a = v then a :: l.filter (fun x => key x == v)
      else l.filter (fun x => key x == v) := by
  induction l with
  | nil => by_cases hv : key a = v <;> simp [insertDesc, hv]
  | cons b bs ih =>
    by_cases hab : key a < key b
    · simp only [insertDesc, if_pos hab]
      by_cases hbv : key b = v
      · have hav : key a ≠ v := by omega
        rw [List.filter_cons_of_pos (by simpa using hbv), ih, if_neg hav, if_neg hav,
          List.filter_cons_of_pos (by simpa using hbv)]
      · rw [List.filter_cons_of_neg (by simpa using hbv), ih]
        by_cases hav : key a = v
        · rw [if_pos hav, if_pos hav, List.filter_cons_of_neg (by simpa using hbv)]
        · rw [if_neg hav, if_neg hav, List.filter_cons_of_neg (by simpa using hbv)]
    · simp only [insertDesc, if_neg hab]
      by_cases hav : key a = v
      · rw [if_pos hav, List.filter_cons_of_pos (by simpa using hav)]
      · rw [if_neg hav, List.filter_cons_of_neg (by simpa using hav)]

lemma filter_sortDesc {α : Type} (key : α → Nat) (v : Nat) (l : List α) :
    (sortDesc key l).filter (fun x => key x == v) = l.filter (fun x => key x == v) := by
  induction l with
  | nil => rfl
  | cons a as ih =>
    show (insertDesc key a (sortDesc key as)).filter _ = _
    rw [filter_insertDesc]
    by_cases hav : key a = v
    · rw [if_pos hav, ih, List.filter_cons_of_pos (by simpa using hav)]
    · rw [if_neg hav, ih, List.filter_cons_of_neg (by simpa using hav)]

lemma bucket_concat (l : List (Str × Nat))
    (h : l.Pairwise (fun x y => y.2 ≤ x.2)) :
    l.filter (fun p => decide (60 ≤ p.2)) ++
      l.filter (fun p => decide (20 ≤ p.2) && decide (p.2 < 60)) ++
      l.filter (fun p => decide (0 < p.2) && decide (p.2 < 20)) ++
      l.filter (fun p => p.2 == 0) = l := by
  induction l with
  | nil => rfl
  | cons p ps ih =>
    obtain ⟨hp, hps⟩ := List.pairwise_cons.mp h
    by_cases h60 : 60 ≤ p.2
    · rw [List.filter_cons_of_pos (by simpa using h60),
        List.filter_cons_of_neg (by simp; omega),
        List.filter_cons_of_neg (by simp; omega),
        List.filter_cons_of_neg (by simp; omega)]
      simpa using ih hps
    · by_cases h20 : 20 ≤ p.2
      · have hf1 : ps.filter (fun p => decide (60 ≤ p.2)) = [] := by
          rw [List.filter_eq_nil_iff]
          intro q hq
          have := hp q hq
          simp
          omega
        rw [List.filter_cons_of_neg (by simpa using h60),
          List.filter_cons_of_pos (by simp; omega),
          List.filter_cons_of_neg (by simp; omega),
          List.filter_cons_of_neg (by simp; omega)]
        have hih := ih hps
        rw [hf1] at hih ⊢
        simpa using hih
      · by_cases h0 : 0 < p.2
        · have hf1 : ps.filter (fun p => decide (60 ≤ p.2)) = [] := by
            rw [List.filter_eq_nil_iff]
            intro q hq
            have := hp q hq
            simp
            omega
          have hf2 : ps.filter (fun p => decide (20 ≤ p.2) && decide (p.2 < 60)) = [] := by
            rw [List.filter_eq_nil_iff]
            intro q hq
            have := hp q hq
            simp
            omega
          rw [List.filter_cons_of_neg (by simpa using h60),
            List.filter_cons_of_neg (by simp; omega),
            List.filter_cons_of_pos (by simp; omega),
            List.filter_cons_of_neg (by simp; omega)]
          have hih := ih hps
          rw [hf1, hf2] at hih ⊢
          simpa using hih
        · have hp0 : p.2 = 0 := by omega
          have hf1 : ps.filter (fun p => decide (60 ≤ p.2)) = [] := by
            rw [List.filter_eq_nil_iff]
            intro q hq
            have := hp q hq
            simp
            omega
          have hf2 : ps.filter (fun p => decide (20 ≤ p.2) && decide (p.2 < 60)) = [] := by
            rw [List.filter_eq_nil_iff]
            intro q hq
            have := hp q hq
            simp
            omega
          have hf3 : ps.filter (fun p => decide (0 < p.2) && decide (p.2 < 20)) = [] := by
            rw [List.filter_eq_nil_iff]
            intro q hq
            have := hp q hq
            simp
            omega
          rw [List.filter_cons_of_neg (by simp; omega),
            List.filter_cons_of_neg (by simp; omega),
            List.filter_cons_of_neg (by simp; omega),
            List.filter_cons_of_pos (by simp; omega)]
          have hih := ih hps
          rw [hf1, hf2, hf3] at hih ⊢
          simpa using hih

lemma prioritize_urls_eq (urls : List Str) (N : Nat) :
    prioritize_urls urls N =
      (((sortDesc (fun p : Str × Nat => p.2) (urls.map fun u => (u, urlScore u))).map
          Prod.fst).take N,
        ((sortDesc (fun p : Str × Nat => p.2) (urls.map fun u => (u, urlScore u))).map
          Prod.fst).length) := by
  unfold prioritize_urls
  dsimp only
  rw [bucket_concat _ (sortDesc_pairwise _ _)]

set_option maxRecDepth 8192 in
/-- C2: with a limit at least the number of discovered URLs, the prioritizer
returns all of them (a permutation of the input), ordered by descending
keyword score, with equal-score URLs kept stable in their input (discovery)
order — stated as: each score class appears in input order — and on the
example discovery list `[team(80), contact(100), people(80)]` with limit 10
it returns `[contact, team, people]`. -/
theorem C2_prioritize_all_sorted_stable (urls : List Str) (N v : Nat)
    (h : urls.length ≤ N) :
    ((prioritize_urls urls N).1).Perm urls ∧
    ((prioritize_urls urls N).1).Pairwise (fun a b => urlScore b ≤ urlScore a) ∧
    ((prioritize_urls urls N).1).filter (fun u => urlScore u == v) =
      urls.filter (fun u => urlScore u == v) ∧
    (prioritize_urls [urlTeam, urlContact, urlPeople] 10).1 =
      [urlContact, urlTeam, urlPeople] := by
  have hsorted := sortDesc_pairwise (fun p : Str × Nat => p.2)
    (urls.map fun u => (u, urlScore u))
  have hperm := sortDesc_perm (fun p : Str × Nat => p.2)
    (urls.map fun u => (u, urlScore u))
  have hmemsnd : ∀ p ∈ sortDesc (fun p : Str × Nat => p.2)
      (urls.map fun u => (u, urlScore u)), p.2 = urlScore p.1 := by
    intro p hp
    have hmem : p ∈ urls.map fun u => (u, urlScore u) := hperm.subset hp
    obtain ⟨u, hu, rfl⟩ := List.mem_map.mp hmem
    rfl
  have hlen_eq : ((sortDesc (fun p : Str × Nat => p.2)
      (urls.map fun u => (u, urlScore u))).map Prod.fst).length = urls.length := by
    rw [List.length_map, hperm.length_eq, List.length_map]
  have hout : (prioritize_urls urls N).1 = (sortDesc (fun p : Str × Nat => p.2)
      (urls.map fun u => (u, urlScore u))).map Prod.fst := by
    rw [prioritize_urls_eq]
    exact List.take_of_length_le (by rw [hlen_eq]; exact h)
  refine ⟨?_, ?_, ?_, by decide⟩
  · rw [hout]
    refine (hperm.map Prod.fst).trans ?_
    rw [List.map_map]
    have : (Prod.fst ∘ fun u : Str => (u, urlScore u)) = id := rfl
    rw [this, List.map_id]
  · rw [hout, List.pairwise_map]
    refine hsorted.imp_of_mem ?_
    intro a b ha hb hr
    rw [← hmemsnd a ha, ← hmemsnd b hb]
    exact hr
  · rw [hout, List.filter_map]
    have hcongr : (sortDesc (fun p : Str × Nat => p.2)
        (urls.map fun u => (u, urlScore u))).filter
          ((fun u => urlScore u == v) ∘ Prod.fst) =
        (sortDesc (fun p : Str × Nat => p.2)
          (urls.map fun u => (u, urlScore u))).filter (fun p => p.2 == v) := by
      refine List.filter_congr ?_
      intro p hp
      show (urlScore p.1 == v) = (p.2 == v)
      rw [hmemsnd p hp]
    rw [hcongr, filter_sortDesc, List.filter_map, List.map_map]
    have h1 : (Prod.fst ∘ fun u : Str => (u, urlScore u)) = id := rfl
    have h2 : ((fun p : Str × Nat => p.2 == v) ∘ fun u : Str => (u, urlScore u)) =
        fun u => urlScore u == v := rfl
    rw [h1, h2, List.map_id]

set_option maxRecDepth 8192 in
/-- Witness for `C2_prioritize_all_sorted_stable` on the example discovery
list with limit 10 and score class 80. -/
theorem C2_witness :
    ([urlTeam, urlContact, urlPeople] : List Str).length ≤ 10 ∧
    (((prioritize_urls [urlTeam, urlContact, urlPeople] 10).1).Perm
        [urlTeam, urlContact, urlPeople] ∧
      ((prioritize_urls [urlTeam, urlContact, urlPeople] 10).1).Pairwise
        (fun a b => urlScore b ≤ urlScore a) ∧
      ((prioritize_urls [urlTeam, urlContact, urlPeople] 10).1).filter
        (fun u => urlScore u == 80) =
        ([urlTeam, urlContact, urlPeople] : List Str).filter
          (fun u => urlScore u == 80) ∧
      (prioritize_urls [urlTeam, urlContact, urlPeople] 10).1 =
        [urlContact, urlTeam, urlPeople]) :=
  ⟨by decide, C2_prioritize_all_sorted_stable [urlTeam, urlContact, urlPeople] 10 80
    (by decide)⟩

/-!
## Facts about the contextual extractors
-/

lemma telPhoneStep_email (c : Contact) (t : Option Str) :
    (telPhoneStep c t).email = c.email := by
  unfold telPhoneStep
  split
  · cases t <;> rfl
  · rfl

lemma nameOverrideStep_email (c : Contact) (t : Option Str) :
    (nameOverrideStep c t).email = c.email := by
  cases t <;> rfl

lemma designationOverrideStep_email (c : Contact) (t : Option Str) :
    (designationOverrideStep c t).email = c.email := by
  cases t <;> rfl

lemma tagStep_email (c : Contact) (tg : TagCtx) :
    (tagStep c tg).email = c.email := by
  unfold tagStep
  rw [designationOverrideStep_email, nameOverrideStep_email]

lemma applyLevel_email (c : Contact) (lv : Option LevelCtx) :
    (applyLevel c lv).email = c.email := by
  cases lv with
  | none => rfl
  | some ctx =>
    show (ctx.tags.foldl tagStep _).email = c.email
    have hfold : ∀ (tags : List TagCtx) (acc : Contact),
        (tags.foldl tagStep acc).email = acc.email := by
      intro tags
      induction tags with
      | nil => intro acc; rfl
      | cons tg tags ih =>
        intro acc
        rw [List.foldl_cons, ih, tagStep_email]
    rw [hfold, nameOverrideStep_email, telPhoneStep_email]

lemma foldl_applyLevel_email (levels : List (Option LevelCtx)) (c : Contact) :
    (levels.foldl applyLevel c).email = c.email := by
  induction levels generalizing c with
  | nil => rfl
  | cons lv levels ih => rw [List.foldl_cons, ih, applyLevel_email]

lemma aiFillName_email (c : Contact) (f : AiFields) :
    (aiFillName c f).email = c.email := by
  unfold aiFillName
  split <;> rfl

lemma aiFillDesignation_email (c : Contact) (f : AiFields) :
    (aiFillDesignation c f).email = c.email := by
  unfold aiFillDesignation
  split <;> rfl

lemma aiFillPhone_email (c : Contact) (f : AiFields) :
    (aiFillPhone c f).email = c.email := by
  unfold aiFillPhone
  split <;> rfl

lemma aiFillDepartment_email (c : Contact) (f : AiFields) :
    (aiFillDepartment c f).email = c.email := by
  unfold aiFillDepartment
  split <;> rfl

lemma applyAiResult_email (c : Contact) (r : AiDict) :
    (applyAiResult c r).email = c.email := by
  cases r with
  | none => rfl
  | some f =>
    show (aiFillDepartment _ _).email = c.email
    rw [aiFillDepartment_email, aiFillPhone_email, aiFillDesignation_email,
      aiFillName_email]

lemma aiBranch_email (b : Bool) (x : Contact) (r : AiDict) :
    (if b then applyAiResult x r else x).email = x.email := by
  split
  · exact applyAiResult_email x r
  · rfl

lemma applyTextElem_email (c : Contact) (ctx : TextElemCtx) :
    (applyTextElem c ctx).email = c.email := by
  unfold applyTextElem
  rw [designationOverrideStep_email, nameOverrideStep_email,
    nameOverrideStep_email, telPhoneStep_email]

lemma foldl_applyTextElem_email (elems : List TextElemCtx) (c : Contact) :
    (elems.foldl applyTextElem c).email = c.email := by
  induction elems generalizing c with
  | nil => rfl
  | cons e elems ih => rw [List.foldl_cons, ih, applyTextElem_email]

lemma emitIfEmailTruthy_some {x c : Contact} (h : emitIfEmailTruthy x = some c) :
    c = x ∧ pyTruthy x.email = true := by
  unfold emitIfEmailTruthy at h
  by_cases hx : pyTruthy x.email = true
  · rw [if_pos hx] at h
    exact ⟨(Option.some.inj h).symm, hx⟩
  · rw [if_neg hx] at h
    exact absurd h (by simp)

lemma pyTruthy_some_iff (e : Str) : pyTruthy (some e) = true ↔ e ≠ [] := by
  simp [pyTruthy]

lemma extract_contact_from_context_some {email sourceUrl scrapedDate : Str}
    {levels : List (Option LevelCtx)} {aiEnabled : Bool}
    {aiAttempts : List (Except Unit AiDict)} {c : Contact}
    (h : extract_contact_from_context email sourceUrl scrapedDate levels
      aiEnabled aiAttempts = some c) :
    c.email = some email ∧ email ≠ [] := by
  unfold extract_contact_from_context at h
  dsimp only at h
  obtain ⟨rfl, ht⟩ := emitIfEmailTruthy_some h
  have he : (if aiEnabled && needs_ai (levels.foldl applyLevel
      { name := fallbackNameFromEmail email, email := some email, phone := none
        designation := none, university := none, department := none
        source_url := sourceUrl, scraped_date := scrapedDate })
      then applyAiResult (levels.foldl applyLevel
        { name := fallbackNameFromEmail email, email := some email, phone := none
          designation := none, university := none, department := none
          source_url := sourceUrl, scraped_date := scrapedDate })
        (extract_contact_info true 2 aiAttempts)
      else levels.foldl applyLevel
        { name := fallbackNameFromEmail email, email := some email, phone := none
          designation := none, university := none, department := none
          source_url := sourceUrl, scraped_date := scrapedDate }).email
      = some email := by
    rw [aiBranch_email, foldl_applyLevel_email]
  refine ⟨he, ?_⟩
  rw [he] at ht
  exact (pyTruthy_some_iff email).mp ht

lemma find_email_context_some {email sourceUrl scrapedDate : Str}
    {elems : List TextElemCtx} {c : Contact}
    (h : find_email_context email sourceUrl scrapedDate elems = some c) :
    c.email = some email ∧ email ≠ [] := by
  unfold find_email_context at h
  dsimp only at h
  obtain ⟨rfl, ht⟩ := emitIfEmailTruthy_some h
  have he : (elems.foldl applyTextElem
      { name := fallbackNameFromEmail email, email := some email, phone := none
        designation := none, university := none, department := none
        source_url := sourceUrl, scraped_date := scrapedDate }).email
      = some email := by
    rw [foldl_applyTextElem_email]
  refine ⟨he, ?_⟩
  rw [he] at ht
  exact (pyTruthy_some_iff email).mp ht

/-- C9: a contact emitted by either tier-3 contextual path (the
mailto-anchored `extract_contact_from_context` and the plain-text
`find_email_context`) carries a non-null email equal to the anchoring
address (so a phone-only contact is never emitted by tier 3). -/
theorem C9_contextual_email_anchored
    (email sourceUrl scrapedDate : Str) (levels : List (Option LevelCtx))
    (aiEnabled : Bool) (aiAttempts : List (Except Unit AiDict)) (c : Contact)
    (h : extract_contact_from_context email sourceUrl scrapedDate levels
      aiEnabled aiAttempts = some c)
    (email' sourceUrl' scrapedDate' : Str) (elems : List TextElemCtx)
    (c' : Contact)
    (h' : find_email_context email' sourceUrl' scrapedDate' elems = some c') :
    c.email = some email ∧ email ≠ [] ∧
    c'.email = some email' ∧ email' ≠ [] := by
  obtain ⟨he, hne⟩ := extract_contact_from_context_some h
  obtain ⟨he', hne'⟩ := find_email_context_some h'
  exact ⟨he, hne, he', hne'⟩

/-- Witness for `C9_contextual_email_anchored` at concrete inputs. -/
theorem C9_witness :
    extract_contact_from_context "x@y.ed".toList "u".toList "d".toList []
        false [] =
      some { name := none, email := some "x@y.ed".toList, phone := none
             designation := none, university := none, department := none
             source_url := "u".toList, scraped_date := "d".toList } ∧
    find_email_context "a@b.cd".toList "u2".toList "d2".toList [] =
      some { name := none, email := some "a@b.cd".toList, phone := none
             designation := none, university := none, department := none
             source_url := "u2".toList, scraped_date := "d2".toList } ∧
    (some "x@y.ed".toList : Option Str) = some "x@y.ed".toList ∧
    "x@y.ed".toList ≠ [] ∧
    (some "a@b.cd".toList : Option Str) = some "a@b.cd".toList ∧
    "a@b.cd".toList ≠ [] := by
  have h1 : extract_contact_from_context "x@y.ed".toList "u".toList "d".toList []
      false [] =
      some { name := none, email := some "x@y.ed".toList, phone := none
             designation := none, university := none, department := none
             source_url := "u".toList, scraped_date := "d".toList } := by decide
  have h2 : find_email_context "a@b.cd".toList "u2".toList "d2".toList [] =
      some { name := none, email := some "a@b.cd".toList, phone := none
             designation := none, university := none, department := none
             source_url := "u2".toList, scraped_date := "d2".toList } := by decide
  have hmain := C9_contextual_email_anchored _ _ _ _ _ _ _ h1 _ _ _ _ _ h2
  exact ⟨h1, h2, hmain.1, hmain.2.1, hmain.2.2.1, hmain.2.2.2⟩

lemma extract_contacts_from_html_members {page : PageData} {aiEnabled : Bool}
    {sourceUrl scrapedDate : Str} {c : Contact}
    (h : c ∈ extract_contacts_from_html page aiEnabled sourceUrl scrapedDate) :
    (pyTruthy c.email || pyTruthy c.phone) = true := by
  unfold extract_contacts_from_html at h
  dsimp only at h
  split at h
  · exact (List.mem_filter.mp h).2
  · split at h
    · obtain ⟨ml, hml, hf⟩ := List.mem_filterMap.mp h
      split at hf
      · obtain ⟨he, hne⟩ := extract_contact_from_context_some hf
        rw [he]
        simp [pyTruthy, hne]
      · exact absurd hf (by simp)
    · obtain ⟨te, hte, hf⟩ := List.mem_filterMap.mp h
      obtain ⟨he, hne⟩ := find_email_context_some hf
      rw [he]
      simp [pyTruthy, hne]

lemma spider_extract_contacts_members {selectorsMatched : Bool}
    {selectorCandidates : List Contact} {rowsMatched : Bool}
    {rowCandidates : List Contact} {urlKeywordHit : Bool} {pageWide : Contact}
    {c : Contact}
    (h : c ∈ spider_extract_contacts selectorsMatched selectorCandidates
      rowsMatched rowCandidates urlKeywordHit pageWide) :
    (pyTruthy c.email || pyTruthy c.phone) = true := by
  unfold spider_extract_contacts at h
  split at h
  · exact (List.mem_filter.mp h).2
  · split at h
    · exact (List.mem_filter.mp h).2
    · split at h
      · split at h
        · rcases List.mem_cons.mp h with rfl | h
          · assumption
          · exact absurd h (List.not_mem_nil c)
        · exact absurd h (List.not_mem_nil c)
      · exact absurd h (List.not_mem_nil c)

/-- C5: every RawContact emitted by the HTML contact extractor
(`extract_contacts_from_html`, any of its three tiers) and by the spider's
`extract_contacts` (any of its three strategies) has a truthy (hence
non-null) email or phone; a candidate with both fields falsy is never
emitted. -/
theorem C5_emitted_contacts_have_email_or_phone
    (page : PageData) (aiEnabled : Bool) (sourceUrl scrapedDate : Str)
    (c : Contact)
    (h : c ∈ extract_contacts_from_html page aiEnabled sourceUrl scrapedDate)
    (selectorsMatched : Bool) (selectorCandidates : List Contact)
    (rowsMatched : Bool) (rowCandidates : List Contact)
    (urlKeywordHit : Bool) (pageWide : Contact) (c' : Contact)
    (h' : c' ∈ spider_extract_contacts selectorsMatched selectorCandidates
      rowsMatched rowCandidates urlKeywordHit pageWide) :
    (pyTruthy c.email || pyTruthy c.phone) = true ∧
    (pyTruthy c'.email || pyTruthy c'.phone) = true :=
  ⟨extract_contacts_from_html_members h, spider_extract_contacts_members h'⟩

/-- Witness for `C5_emitted_contacts_have_email_or_phone` at concrete
inputs exercising tier 2 of the HTML extractor and strategy 1 of the
spider. -/
theorem C5_witness :
    contactW ∈ extract_contacts_from_html pageW false "u".toList "d".toList ∧
    spiderCandW ∈ spider_extract_contacts true [spiderCandW] false [] false
      spiderCandW ∧
    (pyTruthy contactW.email || pyTruthy contactW.phone) = true ∧
    (pyTruthy spiderCandW.email || pyTruthy spiderCandW.phone) = true := by
  have h1 : contactW ∈ extract_contacts_from_html pageW false "u".toList
      "d".toList := by decide
  have h2 : spiderCandW ∈ spider_extract_contacts true [spiderCandW] false []
      false spiderCandW := by decide
  have hmain := C5_emitted_contacts_have_email_or_phone pageW false "u".toList
    "d".toList contactW h1 true [spiderCandW] false [] false spiderCandW
    spiderCandW h2
  exact ⟨h1, h2, hmain.1, hmain.2⟩

/-!
## Frame facts about the LLM field completion
-/

lemma aiFillName_designation (c : Contact) (f : AiFields) :
    (aiFillName c f).designation = c.designation := by
  unfold aiFillName
  split <;> rfl

lemma aiFillName_phone (c : Contact) (f : AiFields) :
    (aiFillName c f).phone = c.phone := by
  unfold aiFillName
  split <;> rfl

lemma aiFillName_department (c : Contact) (f : AiFields) :
    (aiFillName c f).department = c.department := by
  unfold aiFillName
  split <;> rfl

lemma aiFillName_university (c : Contact) (f : AiFields) :
    (aiFillName c f).university = c.university := by
  unfold aiFillName
  split <;> rfl

lemma aiFillName_source_url (c : Contact) (f : AiFields) :
    (aiFillName c f).source_url = c.source_url := by
  unfold aiFillName
  split <;> rfl

lemma aiFillName_scraped_date (c : Contact) (f : AiFields) :
    (aiFillName c f).scraped_date = c.scraped_date := by
  unfold aiFillName
  split <;> rfl

lemma aiFillDesignation_name (c : Contact) (f : AiFields) :
    (aiFillDesignation c f).name = c.name := by
  unfold aiFillDesignation
  split <;> rfl

lemma aiFillDesignation_phone (c : Contact) (f : AiFields) :
    (aiFillDesignation c f).phone = c.phone := by
  unfold aiFillDesignation
  split <;> rfl

lemma aiFillDesignation_department (c : Contact) (f : AiFields) :
    (aiFillDesignation c f).department = c.department := by
  unfold aiFillDesignation
  split <;> rfl

lemma aiFillDesignation_university (c : Contact) (f : AiFields) :
    (aiFillDesignation c f).university = c.university := by
  unfold aiFillDesignation
  split <;> rfl

lemma aiFillDesignation_source_url (c : Contact) (f : AiFields) :
    (aiFillDesignation c f).source_url = c.source_url := by
  unfold aiFillDesignation
  split <;> rfl

lemma aiFillDesignation_scraped_date (c : Contact) (f : AiFields) :
    (aiFillDesignation c f).scraped_date = c.scraped_date := by
  unfold aiFillDesignation
  split <;> rfl

lemma aiFillPhone_name (c : Contact) (f : AiFields) :
    (aiFillPhone c f).name = c.name := by
  unfold aiFillPhone
  split <;> rfl

lemma aiFillPhone_designation (c : Contact) (f : AiFields) :
    (aiFillPhone c f).designation = c.designation := by
  unfold aiFillPhone
  split <;> rfl

lemma aiFillPhone_department (c : Contact) (f : AiFields) :
    (aiFillPhone c f).department = c.department := by
  unfold aiFillPhone
  split <;> rfl

lemma aiFillPhone_university (c : Contact) (f : AiFields) :
    (aiFillPhone c f).university = c.university := by
  unfold aiFillPhone
  split <;> rfl

lemma aiFillPhone_source_url (c : Contact) (f : AiFields) :
    (aiFillPhone c f).source_url = c.source_url := by
  unfold aiFillPhone
  split <;> rfl

lemma aiFillPhone_scraped_date (c : Contact) (f : AiFields) :
    (aiFillPhone c f).scraped_date = c.scraped_date := by
  unfold aiFillPhone
  split <;> rfl

lemma aiFillDepartment_name (c : Contact) (f : AiFields) :
    (aiFillDepartment c f).name = c.name := by
  unfold aiFillDepartment
  split <;> rfl

lemma aiFillDepartment_designation (c : Contact) (f : AiFields) :
    (aiFillDepartment c f).designation = c.designation := by
  unfold aiFillDepartment
  split <;> rfl

lemma aiFillDepartment_phone (c : Contact) (f : AiFields) :
    (aiFillDepartment c f).phone = c.phone := by
  unfold aiFillDepartment
  split <;> rfl

lemma aiFillDepartment_university (c : Contact) (f : AiFields) :
    (aiFillDepartment c f).university = c.university := by
  unfold aiFillDepartment
  split <;> rfl

lemma aiFillDepartment_source_url (c : Contact) (f : AiFields) :
    (aiFillDepartment c f).source_url = c.source_url := by
  unfold aiFillDepartment
  split <;> rfl

lemma aiFillDepartment_scraped_date (c : Contact) (f : AiFields) :
    (aiFillDepartment c f).scraped_date = c.scraped_date := by
  unfold aiFillDepartment
  split <;> rfl

lemma aiFillName_of_truthy {c : Contact} (f : AiFields)
    (h : pyTruthy c.name = true) : aiFillName c f = c := by
  unfold aiFillName
  rw [if_neg (by simp [h])]

lemma aiFillDesignation_of_truthy {c : Contact} (f : AiFields)
    (h : pyTruthy c.designation = true) : aiFillDesignation c f = c := by
  unfold aiFillDesignation
  rw [if_neg (by simp [h])]

lemma aiFillPhone_of_truthy {c : Contact} (f : AiFields)
    (h : pyTruthy c.phone = true) : aiFillPhone c f = c := by
  unfold aiFillPhone
  rw [if_neg (by simp [h])]

lemma aiFillDepartment_of_truthy {c : Contact} (f : AiFields)
    (h : pyTruthy c.department = true) : aiFillDepartment c f = c := by
  unfold aiFillDepartment
  rw [if_neg (by simp [h])]

lemma applyAiResult_some_eq (c : Contact) (f : AiFields) :
    applyAiResult c (some f) =
      aiFillDepartment (aiFillPhone (aiFillDesignation (aiFillName c f) f) f) f := rfl

lemma aiAttemptLoop_all_error (n : Nat) (attempts : List (Except Unit AiDict))
    (h : ∀ a ∈ attempts, a = Except.error ()) : aiAttemptLoop n attempts = none := by
  induction n generalizing attempts with
  | zero =>
    cases attempts with
    | nil => rfl
    | cons a rest =>
      have ha := h a (List.mem_cons_self a rest)
      subst ha
      rfl
  | succ n ih =>
    cases attempts with
    | nil => rfl
    | cons a rest =>
      have ha := h a (List.mem_cons_self a rest)
      subst ha
      show aiAttemptLoop n rest = none
      exact ih rest (fun a' ha' => h a' (List.mem_cons_of_mem _ ha'))

lemma extract_contact_info_all_error (enabled : Bool) (n : Nat)
    (attempts : List (Except Unit AiDict))
    (h : ∀ a ∈ attempts, a = Except.error ()) :
    extract_contact_info enabled n attempts = none := by
  unfold extract_contact_info
  split
  · exact aiAttemptLoop_all_error n attempts h
  · rfl

/-- C8: the LLM answer never overwrites a field the heuristics populated —
each of name/designation/phone/department is taken from the answer only
when falsy — the merge touches no other field, and when every attempt of
the bounded retry loop fails the completion yields the empty result, whose
merge is the identity, so every heuristic value stands unchanged. -/
theorem C8_llm_fill_frame_and_failure
    (c : Contact) (f : AiFields) (enabled : Bool) (n : Nat)
    (attempts : List (Except Unit AiDict))
    (hfail : ∀ a ∈ attempts, a = Except.error ()) :
    (pyTruthy c.name = true → (applyAiResult c (some f)).name = c.name) ∧
    (pyTruthy c.designation = true →
      (applyAiResult c (some f)).designation = c.designation) ∧
    (pyTruthy c.phone = true → (applyAiResult c (some f)).phone = c.phone) ∧
    (pyTruthy c.department = true →
      (applyAiResult c (some f)).department = c.department) ∧
    (applyAiResult c (some f)).email = c.email ∧
    (applyAiResult c (some f)).university = c.university ∧
    (applyAiResult c (some f)).source_url = c.source_url ∧
    (applyAiResult c (some f)).scraped_date = c.scraped_date ∧
    extract_contact_info enabled n attempts = none ∧
    applyAiResult c (extract_contact_info enabled n attempts) = c := by
  refine ⟨?_, ?_, ?_, ?_, ?_, ?_, ?_, ?_, ?_, ?_⟩
  · intro h
    rw [applyAiResult_some_eq, aiFillDepartment_name, aiFillPhone_name,
      aiFillDesignation_name, aiFillName_of_truthy f h]
  · intro h
    rw [applyAiResult_some_eq, aiFillDepartment_designation,
      aiFillPhone_designation,
      aiFillDesignation_of_truthy f (by rw [aiFillName_designation]; exact h),
      aiFillName_designation]
  · intro h
    rw [applyAiResult_some_eq, aiFillDepartment_phone,
      aiFillPhone_of_truthy f
        (by rw [aiFillDesignation_phone, aiFillName_phone]; exact h),
      aiFillDesignation_phone, aiFillName_phone]
  · intro h
    rw [applyAiResult_some_eq,
      aiFillDepartment_of_truthy f (by
        rw [aiFillPhone_department, aiFillDesignation_department,
          aiFillName_department]
        exact h),
      aiFillPhone_department, aiFillDesignation_department,
      aiFillName_department]
  · exact applyAiResult_email c (some f)
  · rw [applyAiResult_some_eq, aiFillDepartment_university,
      aiFillPhone_university, aiFillDesignation_university,
      aiFillName_university]
  · rw [applyAiResult_some_eq, aiFillDepartment_source_url,
      aiFillPhone_source_url, aiFillDesignation_source_url,
      aiFillName_source_url]
  · rw [applyAiResult_some_eq, aiFillDepartment_scraped_date,
      aiFillPhone_scraped_date, aiFillDesignation_scraped_date,
      aiFillName_scraped_date]
  · exact extract_contact_info_all_error enabled n attempts hfail
  · rw [extract_contact_info_all_error enabled n attempts hfail]
    rfl

/-- Witness for `C8_llm_fill_frame_and_failure` on a fully populated
contact, a conflicting answer and three failing transport attempts. -/
theorem C8_witness :
    (∀ a ∈ [Except.error (), Except.error (),
        (Except.error () : Except Unit AiDict)], a = Except.error ()) ∧
    ((pyTruthy heurContact.name = true →
        (applyAiResult heurContact (some aiAnswerW)).name = heurContact.name) ∧
      (pyTruthy heurContact.designation = true →
        (applyAiResult heurContact (some aiAnswerW)).designation =
          heurContact.designation) ∧
      (pyTruthy heurContact.phone = true →
        (applyAiResult heurContact (some aiAnswerW)).phone =
          heurContact.phone) ∧
      (pyTruthy heurContact.department = true →
        (applyAiResult heurContact (some aiAnswerW)).department =
          heurContact.department) ∧
      (applyAiResult heurContact (some aiAnswerW)).email = heurContact.email ∧
      (applyAiResult heurContact (some aiAnswerW)).university =
        heurContact.university ∧
      (applyAiResult heurContact (some aiAnswerW)).source_url =
        heurContact.source_url ∧
      (applyAiResult heurContact (some aiAnswerW)).scraped_date =
        heurContact.scraped_date ∧
      extract_contact_info true 2
        [Except.error (), Except.error (), Except.error ()] = none ∧
      applyAiResult heurContact (extract_contact_info true 2
        [Except.error (), Except.error (), Except.error ()]) = heurContact) := by
  have hfail : ∀ a ∈ [Except.error (), Except.error (),
      (Except.error () : Except Unit AiDict)], a = Except.error () := by
    intro a ha
    rcases List.mem_cons.mp ha with rfl | ha
    · rfl
    · rcases List.mem_cons.mp ha with rfl | ha
      · rfl
      · rcases List.mem_cons.mp ha with rfl | ha
        · rfl
        · exact absurd ha (List.not_mem_nil a)
  exact ⟨hfail, C8_llm_fill_frame_and_failure heurContact aiAnswerW true 2
    [Except.error (), Except.error (), Except.error ()] hfail⟩

/-!
## The pipeline email cleaner yields canonical addresses
-/

lemma charOfNat_toNat_valid (n : Nat) (h : n < 55296) : (Char.ofNat n).toNat = n := by
  have hv : n.isValidChar := Or.inl h
  simp [Char.ofNat, hv, Char.ofNatAux, Char.toNat]
  rfl

lemma toLower_not_upper (c : Char) :
    ¬(65 ≤ (Char.toLower c).toNat ∧ (Char.toLower c).toNat ≤ 90) := by
  unfold Char.toLower
  by_cases h : 65 ≤ c.toNat ∧ c.toNat ≤ 90
  · rw [if_pos h]
    have h2 : (Char.ofNat (c.toNat + 32)).toNat = c.toNat + 32 :=
      charOfNat_toNat_valid _ (by omega)
    omega
  · rw [if_neg h]
    exact h

lemma pyLowerChar_not_upper (x : Char) :
    (!(decide (65 ≤ (pyLowerChar x).toNat) &&
        decide ((pyLowerChar x).toNat ≤ 90))) = true := by
  have h := toLower_not_upper x
  unfold pyLowerChar
  by_cases h1 : 65 ≤ (Char.toLower x).toNat
  · have h2 : ¬(Char.toLower x).toNat ≤ 90 := fun h2 => h ⟨h1, h2⟩
    simp [h2]
  · simp [h1]

lemma pyWs_cases {c : Char} (h : pyWs c = true) :
    c = ' ' ∨ c = '\t' ∨ c = '\n' ∨ c = '\r' ∨ c = '\x0b' ∨ c = '\x0c' := by
  have h2 : ((((c = ' ' ∨ c = '\t') ∨ c = '\n') ∨ c = '\r') ∨ c = '\x0b') ∨
      c = '\x0c' := by
    simpa [pyWs] using h
  tauto

lemma not_ws_of_emailLocalChar {c : Char} (h : emailLocalChar c = true) :
    pyWs c = false := by
  cases hws : pyWs c
  · rfl
  · exfalso
    rcases pyWs_cases hws with rfl | rfl | rfl | rfl | rfl | rfl <;>
      exact absurd h (by decide)

lemma not_ws_of_emailDomainChar {c : Char} (h : emailDomainChar c = true) :
    pyWs c = false := by
  cases hws : pyWs c
  · rfl
  · exfalso
    rcases pyWs_cases hws with rfl | rfl | rfl | rfl | rfl | rfl <;>
      exact absurd h (by decide)

lemma not_ws_of_isAlpha {c : Char} (h : c.isAlpha = true) : pyWs c = false := by
  cases hws : pyWs c
  · rfl
  · exfalso
    rcases pyWs_cases hws with rfl | rfl | rfl | rfl | rfl | rfl <;>
      exact absurd h (by decide)

lemma matchDomain_spec {d : Str} (h : matchDomain d = true) :
    d ≠ [] ∧ ∀ c ∈ d, pyWs c = false := by
  unfold matchDomain at h
  rw [List.any_eq_true] at h
  obtain ⟨i, hi, hcond⟩ := h
  rw [List.mem_range] at hi
  simp only [Bool.and_eq_true, decide_eq_true_eq, beq_iff_eq,
    List.all_eq_true] at hcond
  obtain ⟨⟨⟨h0, htake⟩, hdot⟩, hlen, halpha⟩ := hcond
  constructor
  · intro hnil
    rw [hnil] at hi
    simp at hi
  · intro c hc
    rw [← List.take_append_drop i d] at hc
    rcases List.mem_append.mp hc with hc | hc
    · exact not_ws_of_emailDomainChar (htake c hc)
    · rw [List.drop_eq_getElem_cons hi] at hc
      rcases List.mem_cons.mp hc with rfl | hc
      · have hg : d[i]? = some d[i] := List.getElem?_eq_getElem hi
        rw [hg] at hdot
        rw [Option.some.inj hdot]
        decide
      · exact not_ws_of_isAlpha (halpha c hc)

lemma matchEmailPattern_spec {t : Str} (h : matchEmailPattern t = true) :
    (∃ l d, splitOnChar '@' t = [l, d] ∧ l ≠ [] ∧ d ≠ []) ∧
    ∀ c ∈ t, pyWs c = false := by
  unfold matchEmailPattern at h
  rcases hs : splitOnChar '@' t with _ | ⟨l, _ | ⟨d, _ | ⟨x, rest⟩⟩⟩
  · rw [hs] at h
    exact Bool.noConfusion h
  · rw [hs] at h
    exact Bool.noConfusion h
  · rw [hs] at h
    have h' : (!l.isEmpty && l.all emailLocalChar && matchDomain d) = true := h
    simp only [Bool.and_eq_true, Bool.not_eq_true', List.all_eq_true] at h'
    obtain ⟨⟨hle, hlall⟩, hdom⟩ := h'
    obtain ⟨hdne, hdws⟩ := matchDomain_spec hdom
    have hlne : l ≠ [] := by
      intro hnil
      rw [hnil] at hle
      exact absurd hle (by simp)
    have hjoin : l ++ '@' :: d = t := by
      have hj := joinWithChar_splitOnChar '@' t
      rw [hs] at hj
      exact hj
    refine ⟨⟨l, d, rfl, hlne, hdne⟩, ?_⟩
    intro c hc
    rw [← hjoin] at hc
    rcases List.mem_append.mp hc with hc | hc
    · exact not_ws_of_emailLocalChar (hlall c hc)
    · rcases List.mem_cons.mp hc with rfl | hc
      · decide
      · exact hdws c hc
  · rw [hs] at h
    exact Bool.noConfusion h

lemma headOk_of_no_ws {t : Str} (h : ∀ c ∈ t, pyWs c = false) :
    headOk t = true := by
  cases t with
  | nil => rfl
  | cons c cs =>
    show (!pyWs c) = true
    rw [h c (List.mem_cons_self c cs)]
    rfl

lemma pstrip_eq_self_of_no_ws {t : Str} (h : ∀ c ∈ t, pyWs c = false) :
    pstrip t = t :=
  pstrip_eq_self (headOk_of_no_ws h)
    (headOk_of_no_ws (fun c hc => h c (List.mem_reverse.mp hc)))

lemma mem_of_removeMailtoPre {c : Char} {s : Str} (h : c ∈ removeMailtoPre s) :
    c ∈ s := by
  unfold removeMailtoPre at h
  split at h
  · exact List.drop_subset 7 s h
  · exact h

/-- C6 (counterexample): the claim says the cleaner's non-null output email
is a lowercased canonical address; `clean_contact_data` keeps the email
`"Ab@Cd.edu"` unchanged, with its uppercase letters, so the canonical
invariant fails on its output. -/
theorem C6_counterexample :
    recUpperEmail.email = some "Ab@Cd.edu".toList ∧
    (clean_contact_data recUpperEmail).email = some "Ab@Cd.edu".toList ∧
    specCanonicalEmailB "Ab@Cd.edu".toList = false := by decide

/-- C6 (amended): only the Scrapy pipeline's `clean_email` establishes the
canonical invariant: every non-null output is lowercased (no ASCII
uppercase), trimmed, and splits at exactly one `'@'` into two non-empty
halves.  `clean_contact_data` does not lowercase and keeps multiple-`'@'`
emails (see the counterexample). -/
theorem C6_pipeline_email_canonical (s t : Str) (h : clean_email s = some t) :
    specCanonicalEmailB t = true := by
  unfold clean_email at h
  dsimp only at h
  by_cases hm : matchEmailPattern (removeMailtoPre (pstrip (s.map pyLowerChar))) = true
  · rw [if_pos hm] at h
    have ht : t = removeMailtoPre (pstrip (s.map pyLowerChar)) :=
      (Option.some.inj h).symm
    subst ht
    obtain ⟨⟨l, d, hs, hl, hd⟩, hws⟩ := matchEmailPattern_spec hm
    unfold specCanonicalEmailB
    rw [hs]
    simp only [Bool.and_eq_true, List.all_eq_true, beq_iff_eq]
    refine ⟨⟨?_, ?_⟩, ?_⟩
    · intro c hc
      have hc2 : c ∈ s.map pyLowerChar :=
        mem_of_mem_pstrip (mem_of_removeMailtoPre hc)
      obtain ⟨x, hx, rfl⟩ := List.mem_map.mp hc2
      exact pyLowerChar_not_upper x
    · exact pstrip_eq_self_of_no_ws hws
    · constructor
      · cases l with
        | nil => exact absurd rfl hl
        | cons a as => rfl
      · cases d with
        | nil => exact absurd rfl hd
        | cons a as => rfl
  · rw [if_neg hm] at h
    exact absurd h (by simp)

/-- Witness for `C6_pipeline_email_canonical` at a concrete messy input. -/
theorem C6_witness :
    clean_email " MAILTO:John.Doe@Uni.EDU ".toList =
      some "john.doe@uni.edu".toList ∧
    specCanonicalEmailB "john.doe@uni.edu".toList = true := by
  have h : clean_email " MAILTO:John.Doe@Uni.EDU ".toList =
      some "john.doe@uni.edu".toList := by decide
  exact ⟨h, C6_pipeline_email_canonical _ _ h⟩
